import Mathlib

/-!
# GLB container transcoder: shallow embedding and verification

This file embeds the GLB (binary glTF) transcoder of the repository:

* `preprocessGLB` (inline-mode embedded-image relocation) from
  `src/utils/blobPolyfill`-style module (`uint8ToBase64`, header validation,
  JSON/BIN chunk split, data-URI rewriting, GLB reassembly);
* `stripEmbeddedTextures` (strip-mode relocation) from
  `src/utils/glbPreprocess.ts`;
* the sparse-to-dense accessor conversion script (chunk walk, per-accessor
  densify loop, re-serialization).

Modelling conventions:

* A byte buffer (`ArrayBuffer`, Node `Buffer`, `Uint8Array`) is a `List Nat`
  of byte values; `DataView.getUint32(_, true)` is `readU32`.
* Operations that throw in JS (`DataView`/`Buffer` reads out of range,
  property access on `undefined`, `JSON.parse` failure) are modelled by
  `Option`, `none` standing for the thrown exception.
* The platform JSON codec (`JSON.parse` / `JSON.stringify`, which are not
  code of this repository) is modelled concretely: documents are `Json`
  trees whose numbers are integers (the transcoder reads and writes only
  integral fields; IEEE-754 double formatting is abstracted to decimal
  integers), whose strings are byte lists taken literally except for the
  `\"` and `\\` escapes, and whose objects are ordered association lists
  (JSON.stringify emits keys in insertion order; duplicate keys, which a
  real JS object cannot carry after JSON.parse, are simply preserved).
-/

namespace GLB

/-- Byte buffers: each entry is a byte value `0..255`. -/
abbrev Bytes := List Nat

/-- In-memory JSON documents as decoded by `JSON.parse` and consumed by the
transcoder passes.  Objects are ordered association lists (insertion order,
what `JSON.stringify` emits). -/
inductive Json where
  | null : Json
  | bool : Bool → Json
  | num : Int → Json
  | str : Bytes → Json
  | arr : List Json → Json
  | obj : List (Bytes × Json) → Json
  deriving Repr

/-- Fuel-indexed digit expansion (structural, so that concrete buffers can be
evaluated by kernel reduction). -/
def natDigitsAux : Nat → Nat → Bytes
  | 0, _ => []
  | f + 1, n => if n < 10 then [48 + n] else natDigitsAux f (n / 10) ++ [48 + n % 10]

/-- ASCII decimal digits of a natural number, most significant first. -/
def natDigits (n : Nat) : Bytes := natDigitsAux (n + 1) n

theorem natDigitsAux_congr : ∀ f g n, n < f → n < g → natDigitsAux f n = natDigitsAux g n := by
  intro f
  induction f with
  | zero => omega
  | succ f ih =>
    intro g n hf hg
    cases g with
    | zero => omega
    | succ g =>
      simp only [natDigitsAux]
      split
      · rfl
      · rename_i h
        rw [ih g (n / 10) (by omega) (by omega)]

/-- The recurrence the digit expansion satisfies. -/
theorem natDigits_eq (n : Nat) :
    natDigits n = if n < 10 then [48 + n] else natDigits (n / 10) ++ [48 + n % 10] := by
  show natDigitsAux (n + 1) n = _
  simp only [natDigitsAux]
  split
  · rfl
  · rename_i h
    rw [natDigitsAux_congr n (n / 10 + 1) (n / 10)
      (by omega) (by omega)]
    rfl

/-- JS `String(i)` for an integer: optional minus sign, then digits. -/
def intDigits (i : Int) : Bytes :=
  if i < 0 then 45 :: natDigits (-i).toNat else natDigits i.toNat

/-- String-body escaping as done by `JSON.stringify`: `"` and `\` are
escaped; all other bytes pass through literally. -/
def escapeStr : Bytes → Bytes
  | [] => []
  | c :: cs =>
      (if c = 34 then [92, 34] else if c = 92 then [92, 92] else [c]) ++ escapeStr cs

mutual

/-- `JSON.stringify`: minimal text, no whitespace, insertion-order keys. -/
def Json.stringify : Json → Bytes
  | .null => [110, 117, 108, 108]
  | .bool true => [116, 114, 117, 101]
  | .bool false => [102, 97, 108, 115, 101]
  | .num i => intDigits i
  | .str s => 34 :: (escapeStr s ++ [34])
  | .arr l => 91 :: strElems l
  | .obj m => 123 :: strMembers m

/-- Array elements, comma separated, closed by `]`. -/
def strElems : List Json → Bytes
  | [] => [93]
  | [x] => x.stringify ++ [93]
  | x :: y :: ys => x.stringify ++ 44 :: strElems (y :: ys)

/-- Object members, comma separated, closed by `}`. -/
def strMembers : List (Bytes × Json) → Bytes
  | [] => [125]
  | [(k, v)] => 34 :: (escapeStr k ++ 34 :: 58 :: (v.stringify ++ [125]))
  | (k, v) :: m :: ms =>
      34 :: (escapeStr k ++ 34 :: 58 :: (v.stringify ++ 44 :: strMembers (m :: ms)))

end

/-- JSON whitespace bytes: space, tab, LF, CR. -/
def isWsB (c : Nat) : Bool := c = 32 || c = 9 || c = 10 || c = 13

/-- Skip leading JSON whitespace. -/
def skipWs (cs : Bytes) : Bytes := cs.dropWhile isWsB

/-- ASCII decimal digit test. -/
def isDigitB (c : Nat) : Bool := 48 ≤ c && c ≤ 57

/-- Consume a run of decimal digits, accumulating their value. -/
def parseDigits : Bytes → Nat → Nat × Bytes
  | c :: cs, acc =>
      if isDigitB c then parseDigits cs (acc * 10 + (c - 48)) else (acc, c :: cs)
  | [], acc => (acc, [])

/-- Parse an (integral) JSON number: optional minus sign, then digits. -/
def parseNum : Bytes → Option (Int × Bytes)
  | [] => none
  | c :: cs =>
      if c = 45 then
        match cs with
        | [] => none
        | d :: _ =>
            if isDigitB d then
              let p := parseDigits cs 0
              some (-(p.1 : Int), p.2)
            else none
      else if isDigitB c then
        let p := parseDigits (c :: cs) 0
        some ((p.1 : Int), p.2)
      else none

/-- Parse a string body after the opening quote, handling the `\"` and `\\`
escapes, up to and including the closing quote. -/
def parseStrBody : Bytes → Option (Bytes × Bytes)
  | [] => none
  | c :: cs =>
      if c = 34 then some ([], cs)
      else if c = 92 then
        match cs with
        | [] => none
        | e :: cs2 =>
            if e = 34 || e = 92 then (parseStrBody cs2).map (fun p => (e :: p.1, p.2))
            else none
      else (parseStrBody cs).map (fun p => (c :: p.1, p.2))

mutual

/-- Fuel-indexed recursive-descent JSON value parser (models `JSON.parse`
on the fragment `Json.stringify` emits). -/
def parseVal : Nat → Bytes → Option (Json × Bytes)
  | 0, _ => none
  | f + 1, cs =>
    match skipWs cs with
    | [] => none
    | c :: rest =>
      if c = 110 then
        match rest with
        | 117 :: 108 :: 108 :: r => some (.null, r)
        | _ => none
      else if c = 116 then
        match rest with
        | 114 :: 117 :: 101 :: r => some (.bool true, r)
        | _ => none
      else if c = 102 then
        match rest with
        | 97 :: 108 :: 115 :: 101 :: r => some (.bool false, r)
        | _ => none
      else if c = 34 then (parseStrBody rest).map (fun p => (.str p.1, p.2))
      else if c = 91 then
        match skipWs rest with
        | 93 :: r => some (.arr [], r)
        | r => (parseElems f r).map (fun p => (.arr p.1, p.2))
      else if c = 123 then
        match skipWs rest with
        | 125 :: r => some (.obj [], r)
        | r => (parseMembers f r).map (fun p => (.obj p.1, p.2))
      else if c = 45 || isDigitB c then (parseNum (c :: rest)).map (fun p => (.num p.1, p.2))
      else none

/-- Parse the elements of a non-empty array (after the opening bracket),
including the closing bracket. -/
def parseElems : Nat → Bytes → Option (List Json × Bytes)
  | 0, _ => none
  | f + 1, cs => do
    let (v, r) ← parseVal f cs
    match skipWs r with
    | 44 :: r2 => do
        let (vs, r3) ← parseElems f r2
        pure (v :: vs, r3)
    | 93 :: r2 => pure ([v], r2)
    | _ => none

/-- Parse the members of a non-empty object (after the opening brace),
including the closing brace. -/
def parseMembers : Nat → Bytes → Option (List (Bytes × Json) × Bytes)
  | 0, _ => none
  | f + 1, cs =>
    match skipWs cs with
    | 34 :: r => do
        let (k, r1) ← parseStrBody r
        match skipWs r1 with
        | 58 :: r2 => do
            let (v, r3) ← parseVal f r2
            match skipWs r3 with
            | 44 :: r4 => do
                let (ms, r5) ← parseMembers f r4
                pure ((k, v) :: ms, r5)
            | 125 :: r4 => pure ([(k, v)], r4)
            | _ => none
        | _ => none
    | _ => none

end

/-- `JSON.parse`: one value, then only trailing whitespace. -/
def jsonParse (cs : Bytes) : Option Json :=
  match parseVal (cs.length + 1) cs with
  | some (j, rest) => if rest.all isWsB then some j else none
  | none => none

/-! ### Round-trip of the JSON codec -/

/-- Does the buffer start with a decimal digit? -/
def startsDigit : Bytes → Bool
  | c :: _ => isDigitB c
  | [] => false

theorem natDigits_cons (n : Nat) : ∃ d ds, natDigits n = d :: ds ∧ isDigitB d = true := by
  induction n using Nat.strong_induction_on with
  | _ n ih =>
    rw [natDigits_eq]
    split
    · rename_i h
      refine ⟨48 + n, [], rfl, ?_⟩
      simp only [isDigitB, Bool.and_eq_true, decide_eq_true_eq]
      omega
    · obtain ⟨d, ds, h1, h2⟩ := ih (n / 10) (Nat.div_lt_self (by omega) (by omega))
      exact ⟨d, ds ++ [48 + n % 10], by rw [h1]; rfl, h2⟩

theorem natDigits_all_digit (n : Nat) : ∀ c ∈ natDigits n, isDigitB c = true := by
  induction n using Nat.strong_induction_on with
  | _ n ih =>
    rw [natDigits_eq]
    split
    · rename_i h
      intro c hc
      simp at hc
      subst hc
      simp only [isDigitB, Bool.and_eq_true, decide_eq_true_eq]
      omega
    · intro c hc
      rw [List.mem_append] at hc
      rcases hc with hc | hc
      · exact ih (n / 10) (Nat.div_lt_self (by omega) (by omega)) c hc
      · simp at hc
        subst hc
        simp only [isDigitB, Bool.and_eq_true, decide_eq_true_eq]
        omega

theorem parseDigits_append (ds rest : Bytes) (acc : Nat)
    (hds : ∀ c ∈ ds, isDigitB c = true) (hr : startsDigit rest = false) :
    parseDigits (ds ++ rest) acc =
      (ds.foldl (fun a c => a * 10 + (c - 48)) acc, rest) := by
  induction ds generalizing acc with
  | nil =>
    simp only [List.nil_append, List.foldl_nil]
    cases rest with
    | nil => rfl
    | cons c cs =>
      have hc : isDigitB c = false := hr
      simp [parseDigits, hc]
  | cons d ds ih =>
    have hd : isDigitB d = true := hds d (by simp)
    simp only [List.cons_append, parseDigits, hd, if_true, List.foldl_cons]
    exact ih _ (fun c hc => hds c (by simp [hc]))

theorem foldl_natDigits (n acc : Nat) :
    (natDigits n).foldl (fun a c => a * 10 + (c - 48)) acc
      = acc * 10 ^ (natDigits n).length + n := by
  induction n using Nat.strong_induction_on generalizing acc with
  | _ n ih =>
    rw [natDigits_eq]
    split
    · simp only [List.foldl_cons, List.foldl_nil, List.length_singleton, pow_one]
      omega
    · rename_i h
      rw [List.foldl_append, ih (n / 10) (Nat.div_lt_self (by omega) (by omega))]
      simp only [List.foldl_cons, List.foldl_nil, List.length_append, List.length_singleton]
      have hm := Nat.div_add_mod n 10
      have hp : 10 ^ ((natDigits (n / 10)).length + 1) = 10 ^ (natDigits (n / 10)).length * 10 :=
        pow_succ 10 _
      rw [hp, ← mul_assoc]
      set K := 10 ^ (natDigits (n / 10)).length with hK
      omega

theorem parseNum_pos (d : Nat) (tail : Bytes) (hd : isDigitB d = true) (hd45 : d ≠ 45) :
    parseNum (d :: tail) =
      some (((parseDigits (d :: tail) 0).1 : Int), (parseDigits (d :: tail) 0).2) := by
  rw [parseNum.eq_def]
  simp [hd45, hd]

theorem parseNum_neg (d : Nat) (tail : Bytes) (hd : isDigitB d = true) :
    parseNum (45 :: d :: tail) =
      some (-((parseDigits (d :: tail) 0).1 : Int), (parseDigits (d :: tail) 0).2) := by
  rw [parseNum.eq_def]
  simp [hd]

theorem parseNum_append (i : Int) (rest : Bytes) (hr : startsDigit rest = false) :
    parseNum (intDigits i ++ rest) = some (i, rest) := by
  have hfold : ∀ m : Nat, parseDigits (natDigits m ++ rest) 0 = (m, rest) := by
    intro m
    rw [parseDigits_append _ _ _ (natDigits_all_digit _) hr, foldl_natDigits]
    simp
  by_cases hi : i < 0
  · obtain ⟨d, ds, hnd, hd⟩ := natDigits_cons (-i).toNat
    have hcons : natDigits (-i).toNat ++ rest = d :: (ds ++ rest) := by rw [hnd]; rfl
    have h2 : ((-i).toNat : Int) = -i := Int.toNat_of_nonneg (by omega)
    have step : intDigits i ++ rest = 45 :: (d :: (ds ++ rest)) := by
      simp only [intDigits, if_pos hi, List.cons_append, hcons]
    rw [step, parseNum_neg d _ hd, ← hcons, hfold]
    rw [h2, neg_neg]
  · obtain ⟨d, ds, hnd, hd⟩ := natDigits_cons i.toNat
    have hd45 : d ≠ 45 := by
      simp only [isDigitB, Bool.and_eq_true, decide_eq_true_eq] at hd
      omega
    have hcons : natDigits i.toNat ++ rest = d :: (ds ++ rest) := by rw [hnd]; rfl
    have h2 : (i.toNat : Int) = i := Int.toNat_of_nonneg (by omega)
    have step : intDigits i ++ rest = d :: (ds ++ rest) := by
      simp only [intDigits, if_neg hi, hcons]
    rw [step, parseNum_pos d _ hd hd45, ← hcons, hfold]
    rw [h2]

theorem parseStrBody_escape (s rest : Bytes) :
    parseStrBody (escapeStr s ++ (34 :: rest)) = some (s, rest) := by
  induction s with
  | nil =>
    show parseStrBody (34 :: rest) = some ([], rest)
    rw [parseStrBody.eq_def]
    simp
  | cons c cs ih =>
    by_cases h34 : c = 34
    · subst h34
      have e1 : escapeStr (34 :: cs) = 92 :: 34 :: escapeStr cs := by
        simp [escapeStr]
      rw [e1, List.cons_append, List.cons_append, parseStrBody.eq_def]
      simp [ih]
    · by_cases h92 : c = 92
      · subst h92
        have e1 : escapeStr (92 :: cs) = 92 :: 92 :: escapeStr cs := by
          simp [escapeStr]
        rw [e1, List.cons_append, List.cons_append, parseStrBody.eq_def]
        simp [ih]
      · have e1 : escapeStr (c :: cs) = c :: escapeStr cs := by
          simp [escapeStr, h34, h92]
        rw [e1, List.cons_append, parseStrBody.eq_def]
        simp [h34, h92, ih]

mutual

/-- Fuel sufficient for `parseVal` to reparse a stringified value. -/
def jfuel : Json → Nat
  | .arr l => 1 + efuel l
  | .obj m => 1 + mfuel m
  | _ => 1

/-- Fuel sufficient for `parseElems` on a stringified element list. -/
def efuel : List Json → Nat
  | [] => 0
  | x :: xs => 1 + max (jfuel x) (efuel xs)

/-- Fuel sufficient for `parseMembers` on a stringified member list. -/
def mfuel : List (Bytes × Json) → Nat
  | [] => 0
  | (_, v) :: ms => 1 + max (jfuel v) (mfuel ms)

end

theorem jfuel_pos (j : Json) : 1 ≤ jfuel j := by
  cases j <;> simp [jfuel]

theorem skipWs_cons (c : Nat) (cs : Bytes) (h : isWsB c = false) :
    skipWs (c :: cs) = c :: cs := by
  simp [skipWs, List.dropWhile_cons, h]

theorem isWsB_of_ne (c : Nat) (h1 : c ≠ 32) (h2 : c ≠ 9) (h3 : c ≠ 10) (h4 : c ≠ 13) :
    isWsB c = false := by
  simp [isWsB, h1, h2, h3, h4]

/-- Every stringified value begins with a non-whitespace byte other than `]`
and `}`. -/
theorem stringify_head (j : Json) :
    ∃ c t, Json.stringify j = c :: t ∧ isWsB c = false ∧ c ≠ 93 ∧ c ≠ 125 := by
  cases j with
  | null => exact ⟨110, _, rfl, by decide, by decide, by decide⟩
  | bool b =>
    cases b with
    | true => exact ⟨116, _, rfl, by decide, by decide, by decide⟩
    | false => exact ⟨102, _, rfl, by decide, by decide, by decide⟩
  | num i =>
    by_cases hi : i < 0
    · refine ⟨45, natDigits (-i).toNat, ?_, by decide, by decide, by decide⟩
      simp [Json.stringify, intDigits, hi]
    · obtain ⟨d, ds, hnd, hdg⟩ := natDigits_cons i.toNat
      have hb : 48 ≤ d ∧ d ≤ 57 := by
        simpa [isDigitB, Bool.and_eq_true, decide_eq_true_eq] using hdg
      refine ⟨d, ds, ?_, isWsB_of_ne d (by omega) (by omega) (by omega) (by omega),
        by omega, by omega⟩
      simp [Json.stringify, intDigits, hi, hnd]
  | str s => exact ⟨34, _, rfl, by decide, by decide, by decide⟩
  | arr l => exact ⟨91, _, rfl, by decide, by decide, by decide⟩
  | obj m => exact ⟨123, _, rfl, by decide, by decide, by decide⟩

/-- Core reparse property: with enough fuel, parsing a stringified value
consumes exactly the stringified text and returns the value. -/
theorem reparse (f : Nat) :
    (∀ j rest, jfuel j ≤ f → startsDigit rest = false →
      parseVal f (Json.stringify j ++ rest) = some (j, rest)) ∧
    (∀ x xs rest, efuel (x :: xs) ≤ f →
      parseElems f (strElems (x :: xs) ++ rest) = some (x :: xs, rest)) ∧
    (∀ kv ms rest, mfuel (kv :: ms) ≤ f →
      parseMembers f (strMembers (kv :: ms) ++ rest) = some (kv :: ms, rest)) := by
  induction f with
  | zero =>
    refine ⟨?_, ?_, ?_⟩
    · intro j rest hf _
      have := jfuel_pos j
      omega
    · intro x xs rest hf
      simp only [efuel] at hf
      omega
    · intro kv ms rest hf
      obtain ⟨k, v⟩ := kv
      simp only [mfuel] at hf
      omega
  | succ f ih =>
    obtain ⟨ihP, ihQ, ihR⟩ := ih
    refine ⟨?_, ?_, ?_⟩
    · intro j rest hf hr
      cases j with
      | null =>
        have hshape : Json.stringify .null ++ rest = 110 :: 117 :: 108 :: 108 :: rest := by
          simp [Json.stringify]
        rw [hshape, parseVal.eq_def]
        simp [skipWs, isWsB]
      | bool b =>
        cases b with
        | true =>
          have hshape : Json.stringify (.bool true) ++ rest
              = 116 :: 114 :: 117 :: 101 :: rest := by
            simp [Json.stringify]
          rw [hshape, parseVal.eq_def]
          simp [skipWs, isWsB]
        | false =>
          have hshape : Json.stringify (.bool false) ++ rest
              = 102 :: 97 :: 108 :: 115 :: 101 :: rest := by
            simp [Json.stringify]
          rw [hshape, parseVal.eq_def]
          simp [skipWs, isWsB]
      | num i =>
        by_cases hi : i < 0
        · have hstr : Json.stringify (.num i) ++ rest
              = 45 :: (natDigits (-i).toNat ++ rest) := by
            simp [Json.stringify, intDigits, hi]
          have hpn : parseNum (45 :: (natDigits (-i).toNat ++ rest)) = some (i, rest) := by
            have h45 : intDigits i ++ rest = 45 :: (natDigits (-i).toNat ++ rest) := by
              simp [intDigits, hi]
            rw [← h45]
            exact parseNum_append i rest hr
          rw [hstr, parseVal.eq_def]
          simp [skipWs, isWsB, hpn]
        · obtain ⟨d, ds, hnd, hdg⟩ := natDigits_cons i.toNat
          have hb : 48 ≤ d ∧ d ≤ 57 := by
            simpa [isDigitB, Bool.and_eq_true, decide_eq_true_eq] using hdg
          have hstr : Json.stringify (.num i) ++ rest = d :: (ds ++ rest) := by
            simp [Json.stringify, intDigits, hi, hnd]
          have hpn : parseNum (d :: (ds ++ rest)) = some (i, rest) := by
            have hid : intDigits i ++ rest = d :: (ds ++ rest) := by
              simp [intDigits, hi, hnd]
            rw [← hid]
            exact parseNum_append i rest hr
          have n1 : d ≠ 110 := by omega
          have n2 : d ≠ 116 := by omega
          have n3 : d ≠ 102 := by omega
          have n4 : d ≠ 34 := by omega
          have n5 : d ≠ 91 := by omega
          have n6 : d ≠ 123 := by omega
          have nw : isWsB d = false := isWsB_of_ne d (by omega) (by omega) (by omega) (by omega)
          rw [hstr, parseVal.eq_def]
          simp [skipWs, nw, n1, n2, n3, n4, n5, n6, hdg, hpn]
      | str s =>
        have hshape : Json.stringify (.str s) ++ rest
            = 34 :: (escapeStr s ++ (34 :: rest)) := by
          simp [Json.stringify]
        rw [hshape, parseVal.eq_def]
        simp [skipWs, isWsB, parseStrBody_escape]
      | arr l =>
        cases l with
        | nil =>
          have hshape : Json.stringify (.arr []) ++ rest = 91 :: 93 :: rest := by
            simp [Json.stringify, strElems]
          rw [hshape, parseVal.eq_def]
          simp [skipWs, isWsB]
        | cons x xs =>
          have hf2 : efuel (x :: xs) ≤ f := by
            simp only [jfuel] at hf
            omega
          have key := ihQ x xs rest hf2
          obtain ⟨u, hu⟩ : ∃ u, strElems (x :: xs) = Json.stringify x ++ u := by
            cases xs with
            | nil => exact ⟨[93], by simp [strElems]⟩
            | cons y ys => exact ⟨44 :: strElems (y :: ys), by simp [strElems]⟩
          obtain ⟨c0, t0, hc0, hw0, h93, _⟩ := stringify_head x
          have hcons : strElems (x :: xs) ++ rest = c0 :: (t0 ++ (u ++ rest)) := by
            rw [hu, hc0]
            simp
          have hshape : Json.stringify (.arr (x :: xs)) ++ rest
              = 91 :: (strElems (x :: xs) ++ rest) := by
            simp [Json.stringify]
          have hw91 : isWsB 91 = false := by decide
          rw [hshape, parseVal.eq_def]
          rw [hcons] at key ⊢
          simp [skipWs, List.dropWhile_cons, hw91, hw0, h93, key]
      | obj m =>
        cases m with
        | nil =>
          have hshape : Json.stringify (.obj []) ++ rest = 123 :: 125 :: rest := by
            simp [Json.stringify, strMembers]
          rw [hshape, parseVal.eq_def]
          simp [skipWs, isWsB]
        | cons kv ms =>
          have hf2 : mfuel (kv :: ms) ≤ f := by
            simp only [jfuel] at hf
            omega
          have key := ihR kv ms rest hf2
          obtain ⟨t, ht⟩ : ∃ t, strMembers (kv :: ms) = 34 :: t := by
            obtain ⟨k, v⟩ := kv
            cases ms with
            | nil =>
              exact ⟨escapeStr k ++ 34 :: 58 :: (Json.stringify v ++ [125]),
                by simp [strMembers]⟩
            | cons m2 ms2 =>
              exact ⟨escapeStr k ++ 34 :: 58 :: (Json.stringify v
                ++ 44 :: strMembers (m2 :: ms2)), by simp [strMembers]⟩
          have hshape : Json.stringify (.obj (kv :: ms)) ++ rest
              = 123 :: (strMembers (kv :: ms) ++ rest) := by
            simp [Json.stringify]
          rw [hshape, parseVal.eq_def]
          rw [ht] at key ⊢
          simp only [List.cons_append] at key ⊢
          simp [skipWs, isWsB, key]
    · intro x xs rest hf
      have hm1 := Nat.le_max_left (jfuel x) (efuel xs)
      have hm2 := Nat.le_max_right (jfuel x) (efuel xs)
      simp only [efuel] at hf
      cases xs with
      | nil =>
        have hP := ihP x (93 :: rest) (by omega) rfl
        have hshape : strElems [x] ++ rest = Json.stringify x ++ (93 :: rest) := by
          simp [strElems]
        rw [hshape, parseElems.eq_def]
        simp [skipWs, isWsB, hP]
      | cons y ys =>
        have hP := ihP x (44 :: (strElems (y :: ys) ++ rest)) (by omega) rfl
        have hQ := ihQ y ys rest (by omega)
        have hshape : strElems (x :: y :: ys) ++ rest
            = Json.stringify x ++ (44 :: (strElems (y :: ys) ++ rest)) := by
          simp [strElems]
        rw [hshape, parseElems.eq_def]
        simp [skipWs, isWsB, hP, hQ]
    · intro kv ms rest hf
      obtain ⟨k, v⟩ := kv
      have hm1 := Nat.le_max_left (jfuel v) (mfuel ms)
      have hm2 := Nat.le_max_right (jfuel v) (mfuel ms)
      simp only [mfuel] at hf
      cases ms with
      | nil =>
        have hP := ihP v (125 :: rest) (by omega) rfl
        have hshape : strMembers [(k, v)] ++ rest
            = 34 :: (escapeStr k ++ (34 :: (58 :: (Json.stringify v ++ (125 :: rest))))) := by
          simp [strMembers]
        rw [hshape, parseMembers.eq_def]
        simp [skipWs, isWsB, parseStrBody_escape, hP]
      | cons m2 ms2 =>
        have hP := ihP v (44 :: (strMembers (m2 :: ms2) ++ rest)) (by omega) rfl
        have hR := ihR m2 ms2 rest (by omega)
        have hshape : strMembers ((k, v) :: m2 :: ms2) ++ rest
            = 34 :: (escapeStr k ++ (34 :: (58 :: (Json.stringify v
                ++ (44 :: (strMembers (m2 :: ms2) ++ rest)))))) := by
          simp [strMembers]
        rw [hshape, parseMembers.eq_def]
        simp [skipWs, isWsB, parseStrBody_escape, hP, hR]

theorem stringify_len_pos (j : Json) : 1 ≤ (Json.stringify j).length := by
  obtain ⟨c, t, hct, -, -, -⟩ := stringify_head j
  simp [hct]

mutual

theorem jfuel_le_len : ∀ j : Json, jfuel j ≤ (Json.stringify j).length
  | .null => by simp [jfuel, Json.stringify]
  | .bool b => by cases b <;> simp [jfuel, Json.stringify]
  | .num i => by
      have h := stringify_len_pos (.num i)
      simp only [jfuel]
      omega
  | .str s => by
      have h := stringify_len_pos (.str s)
      simp only [jfuel]
      omega
  | .arr l => by
      have h := efuel_le_len l
      simp only [jfuel, Json.stringify, List.length_cons]
      omega
  | .obj m => by
      have h := mfuel_le_len m
      simp only [jfuel, Json.stringify, List.length_cons]
      omega

theorem efuel_le_len : ∀ l : List Json, efuel l ≤ (strElems l).length
  | [] => by simp [efuel, strElems]
  | [x] => by
      have h := jfuel_le_len x
      simp only [efuel, strElems, List.length_append, List.length_singleton,
        List.length_nil]
      omega
  | x :: y :: ys => by
      have h1 := jfuel_le_len x
      have h2 := efuel_le_len (y :: ys)
      simp only [efuel, strElems, List.length_append, List.length_cons] at h2 ⊢
      omega

theorem mfuel_le_len : ∀ m : List (Bytes × Json), mfuel m ≤ (strMembers m).length
  | [] => by simp [mfuel, strMembers]
  | [(k, v)] => by
      have h := jfuel_le_len v
      simp only [mfuel, strMembers, List.length_append, List.length_cons]
      omega
  | (k, v) :: m2 :: ms2 => by
      have h1 := jfuel_le_len v
      have h2 := mfuel_le_len (m2 :: ms2)
      simp only [mfuel, strMembers, List.length_append, List.length_cons] at h2 ⊢
      omega

end

/-- `JSON.parse` is a left inverse of `JSON.stringify`, also through trailing
space padding (which the GLB serializer appends to the JSON chunk). -/
theorem jsonParse_stringify_pad (j : Json) (p : Nat) :
    jsonParse (Json.stringify j ++ List.replicate p 32) = some j := by
  unfold jsonParse
  have hf : jfuel j ≤ (Json.stringify j ++ List.replicate p 32).length + 1 := by
    have := jfuel_le_len j
    simp only [List.length_append]
    omega
  have hd : startsDigit (List.replicate p 32) = false := by
    cases p with
    | zero => rfl
    | succ q => rfl
  rw [(reparse _).1 j (List.replicate p 32) hf hd]
  have hall : (List.replicate p 32).all isWsB = true := by
    rw [List.all_eq_true]
    intro x hx
    rw [List.eq_of_mem_replicate hx]
    decide
  simp [hall]

/-! ### GLB container layer

Byte-level view of the GLB container, shared by all three transforms:
12-byte header (magic, version, total length), then chunks, each with a
4-byte little-endian length, a 4-byte type tag, and `length` bytes of data.
-/

/-- `DataView.setUint32(_, n, true)`: four little-endian bytes (the JS call
wraps modulo `2^32`). -/
def u32le (n : Nat) : Bytes :=
  [n % 256, n / 256 % 256, n / 65536 % 256, n / 16777216 % 256]

/-- `DataView.getUint32(o, true)` / `Buffer.readUInt32LE(o)`: little-endian
read; `none` when fewer than four bytes are available (the JS call throws a
RangeError). -/
def readU32 (b : Bytes) (o : Nat) : Option Nat :=
  match b.drop o with
  | b0 :: b1 :: b2 :: b3 :: _ => some (b0 + b1 * 256 + b2 * 65536 + b3 * 16777216)
  | _ => none

/-- `new Uint8Array(buffer, off, len)`: the exact byte range; throws (`none`)
when the range exceeds the buffer. -/
def getBytes (b : Bytes) (off len : Nat) : Option Bytes :=
  if off + len ≤ b.length then some ((b.drop off).take len) else none

/-- The glTF magic number `0x46546C67` ("glTF"). -/
def glbMagic : Nat := 0x46546C67

/-- The JSON chunk type tag `0x4E4F534A`. -/
def jsonTag : Nat := 0x4E4F534A

/-- The BIN chunk type tag `0x004E4942`. -/
def binTag : Nat := 0x004E4942

/-- Padding needed to reach the next multiple of four: `(4 - n % 4) % 4`. -/
def pad4 (n : Nat) : Nat := (4 - n % 4) % 4

/-- Zero-pad a BIN chunk to a multiple of four, as the serializer does. -/
def padBin (bb : Bytes) : Bytes := bb ++ List.replicate (pad4 bb.length) 0

/-- Container parse (spec §4.1; the chunk prologue shared by
`preprocessGLB`, `stripEmbeddedTextures` and the densify script): validate
magic and version, decode the JSON chunk (which must come first), expose the
optional BIN chunk.  `none` conflates the not-a-container signal with thrown
errors; the buffer-level transforms below keep their sources' distinction. -/
def parseGLB (b : Bytes) : Option (Json × Option Bytes) := do
  let magic ← readU32 b 0
  if magic ≠ glbMagic then none else do
  let ver ← readU32 b 4
  if ver ≠ 2 then none else do
  let jlen ← readU32 b 12
  let jtype ← readU32 b 16
  if jtype ≠ jsonTag then none else do
  let jbytes ← getBytes b 20 jlen
  let doc ← jsonParse jbytes
  let off := 20 + jlen
  if off < b.length then do
    let blen ← readU32 b off
    let btype ← readU32 b (off + 4)
    if btype = binTag then do
      let bin ← getBytes b (off + 8) blen
      pure (doc, some bin)
    else pure (doc, none)
  else pure (doc, none)

/-- Container serialize (spec §4.2; the reassembly code shared by all three
transforms): JSON chunk padded with ASCII spaces, optional BIN chunk padded
with zero bytes, 12-byte header carrying the total length. -/
def serializeGLB (doc : Json) (bin : Option Bytes) : Bytes :=
  let jsonBytes := doc.stringify
  let jdata := jsonBytes ++ List.replicate (pad4 jsonBytes.length) 32
  match bin with
  | none =>
      u32le glbMagic ++ u32le 2 ++ u32le (12 + 8 + jdata.length)
        ++ u32le jdata.length ++ u32le jsonTag ++ jdata
  | some bb =>
      let bdata := padBin bb
      u32le glbMagic ++ u32le 2 ++ u32le (12 + 8 + jdata.length + 8 + bdata.length)
        ++ u32le jdata.length ++ u32le jsonTag ++ jdata
        ++ u32le bdata.length ++ u32le binTag ++ bdata

theorem u32le_length (n : Nat) : (u32le n).length = 4 := rfl

theorem pad4_mod (n : Nat) : (n + pad4 n) % 4 = 0 := by
  simp only [pad4]
  omega

theorem pad4_lt (n : Nat) : pad4 n < 4 := by
  simp only [pad4]
  omega

theorem readU32_at_zero (n : Nat) (R : Bytes) (h : n < 4294967296) :
    readU32 (u32le n ++ R) 0 = some n := by
  rw [readU32.eq_def]
  simp only [u32le, List.cons_append, List.nil_append, List.drop_zero]
  simp only [Option.some.injEq]
  omega

theorem readU32_shift (pre R : Bytes) (o : Nat) (h : pre.length ≤ o) :
    readU32 (pre ++ R) o = readU32 R (o - pre.length) := by
  rw [readU32.eq_def, readU32.eq_def]
  have ho : o = pre.length + (o - pre.length) := by omega
  rw [ho, List.drop_append]
  have h2 : pre.length + (o - pre.length) - pre.length = o - pre.length := by omega
  rw [h2]

theorem readU32_shift4 (w R : Bytes) (o : Nat) (hw : w.length = 4) (ho : 4 ≤ o) :
    readU32 (w ++ R) o = readU32 R (o - 4) := by
  rw [readU32_shift w R o (by omega), hw]

theorem getBytes_shift (pre R : Bytes) (off len : Nat) (h : pre.length ≤ off) :
    getBytes (pre ++ R) off len = getBytes R (off - pre.length) len := by
  have hdrop : (pre ++ R).drop off = R.drop (off - pre.length) := by
    have ho : off = pre.length + (off - pre.length) := by omega
    rw [ho, List.drop_append]
    have h2 : pre.length + (off - pre.length) - pre.length = off - pre.length := by omega
    rw [h2]
  simp only [getBytes, List.length_append, hdrop]
  by_cases hc : off + len ≤ pre.length + R.length
  · rw [if_pos hc, if_pos (by omega)]
  · rw [if_neg hc, if_neg (by omega)]

theorem getBytes_shift4 (w R : Bytes) (off len : Nat) (hw : w.length = 4) (ho : 4 ≤ off) :
    getBytes (w ++ R) off len = getBytes R (off - 4) len := by
  rw [getBytes_shift w R off len (by omega), hw]

theorem getBytes_prefix (xs ys : Bytes) (len : Nat) (h : len = xs.length) :
    getBytes (xs ++ ys) 0 len = some xs := by
  subst h
  simp only [getBytes, List.length_append, List.drop_zero]
  rw [if_pos (by omega), List.take_left]

theorem getBytes_all (xs : Bytes) (len : Nat) (h : len = xs.length) :
    getBytes xs 0 len = some xs := by
  subst h
  simp [getBytes]

theorem readU32_at (pre R : Bytes) (o : Nat) (h : pre.length = o) :
    readU32 (pre ++ R) o = readU32 R 0 := by
  rw [readU32_shift pre R o (by omega), h, Nat.sub_self]

theorem getBytes_at (pre R : Bytes) (off len : Nat) (h : pre.length = off) :
    getBytes (pre ++ R) off len = getBytes R 0 len := by
  rw [getBytes_shift pre R off len (by omega), h, Nat.sub_self]

/-- Parsing the serializer's output recovers the document exactly, and the
BIN chunk zero-padded to a multiple of four (the sizes must fit in the
32-bit chunk-length fields, as they always do for a JS `ArrayBuffer`). -/
theorem parseGLB_serializeGLB (doc : Json) (bin : Option Bytes)
    (hj : (Json.stringify doc).length + 3 < 4294967296)
    (hb : ∀ bb, bin = some bb → bb.length + 3 < 4294967296) :
    parseGLB (serializeGLB doc bin) = some (doc, bin.map padBin) := by
  have hpl := pad4_lt (Json.stringify doc).length
  have edoc : jsonParse (Json.stringify doc
      ++ List.replicate (pad4 (Json.stringify doc).length) 32) = some doc :=
    jsonParse_stringify_pad doc _
  cases bin with
  | none =>
    simp only [serializeGLB]
    set J := Json.stringify doc with hJ
    set JD := J ++ List.replicate (pad4 J.length) 32 with hJD
    have hJDlen : JD.length = J.length + pad4 J.length := by simp [hJD]
    have hlt : JD.length < 4294967296 := by omega
    set B := u32le glbMagic ++ u32le 2 ++ u32le (12 + 8 + JD.length)
      ++ u32le JD.length ++ u32le jsonTag ++ JD with hB
    have e0 : readU32 B 0 = some glbMagic := by
      rw [hB]
      simp only [List.append_assoc]
      exact readU32_at_zero _ _ (by decide)
    have e4 : readU32 B 4 = some 2 := by
      have hsp : B = u32le glbMagic ++ (u32le 2
          ++ (u32le (12 + 8 + JD.length) ++ (u32le JD.length ++ (u32le jsonTag ++ JD)))) := by
        rw [hB]
        try simp [List.append_assoc]
      rw [hsp, readU32_at _ _ 4 (u32le_length _)]
      exact readU32_at_zero _ _ (by decide)
    have e12 : readU32 B 12 = some JD.length := by
      have hsp : B = (u32le glbMagic ++ u32le 2 ++ u32le (12 + 8 + JD.length))
          ++ (u32le JD.length ++ (u32le jsonTag ++ JD)) := by
        rw [hB]
        try simp [List.append_assoc]
      rw [hsp, readU32_at _ _ 12 (by simp [List.length_append, u32le_length])]
      exact readU32_at_zero _ _ hlt
    have e16 : readU32 B 16 = some jsonTag := by
      have hsp : B = (u32le glbMagic ++ u32le 2 ++ u32le (12 + 8 + JD.length)
          ++ u32le JD.length) ++ (u32le jsonTag ++ JD) := by
        rw [hB]
        try simp [List.append_assoc]
      rw [hsp, readU32_at _ _ 16 (by simp [List.length_append, u32le_length])]
      exact readU32_at_zero _ _ (by decide)
    have e20 : getBytes B 20 JD.length = some JD := by
      have hsp : B = (u32le glbMagic ++ u32le 2 ++ u32le (12 + 8 + JD.length)
          ++ u32le JD.length ++ u32le jsonTag) ++ JD := by
        rw [hB]
        try simp [List.append_assoc]
      rw [hsp, getBytes_at _ _ 20 _ (by simp [List.length_append, u32le_length])]
      exact getBytes_all _ _ rfl
    have elen : B.length = 20 + JD.length := by
      rw [hB]
      simp only [List.length_append, u32le_length]
      try omega
    have edoc2 : jsonParse JD = some doc := edoc
    simp [parseGLB, e0, e4, e12, e16, e20, edoc2, elen]
  | some bb =>
    have hbb := hb bb rfl
    simp only [serializeGLB, padBin]
    set J := Json.stringify doc with hJ
    set JD := J ++ List.replicate (pad4 J.length) 32 with hJD
    set BD := bb ++ List.replicate (pad4 bb.length) 0 with hBD
    have hJDlen : JD.length = J.length + pad4 J.length := by simp [hJD]
    have hBDlen : BD.length = bb.length + pad4 bb.length := by simp [hBD]
    have hplb := pad4_lt bb.length
    have hlt : JD.length < 4294967296 := by omega
    have hltb : BD.length < 4294967296 := by omega
    set B := u32le glbMagic ++ u32le 2 ++ u32le (12 + 8 + JD.length + 8 + BD.length)
      ++ u32le JD.length ++ u32le jsonTag ++ JD
      ++ u32le BD.length ++ u32le binTag ++ BD with hB
    have e0 : readU32 B 0 = some glbMagic := by
      rw [hB]
      simp only [List.append_assoc]
      exact readU32_at_zero _ _ (by decide)
    have e4 : readU32 B 4 = some 2 := by
      have hsp : B = u32le glbMagic ++ (u32le 2
          ++ (u32le (12 + 8 + JD.length + 8 + BD.length) ++ (u32le JD.length
          ++ (u32le jsonTag ++ (JD ++ (u32le BD.length ++ (u32le binTag ++ BD))))))) := by
        rw [hB]
        try simp [List.append_assoc]
      rw [hsp, readU32_at _ _ 4 (u32le_length _)]
      exact readU32_at_zero _ _ (by decide)
    have e12 : readU32 B 12 = some JD.length := by
      have hsp : B = (u32le glbMagic ++ u32le 2 ++ u32le (12 + 8 + JD.length + 8 + BD.length))
          ++ (u32le JD.length ++ (u32le jsonTag ++ (JD
          ++ (u32le BD.length ++ (u32le binTag ++ BD))))) := by
        rw [hB]
        try simp [List.append_assoc]
      rw [hsp, readU32_at _ _ 12 (by simp [List.length_append, u32le_length])]
      exact readU32_at_zero _ _ hlt
    have e16 : readU32 B 16 = some jsonTag := by
      have hsp : B = (u32le glbMagic ++ u32le 2 ++ u32le (12 + 8 + JD.length + 8 + BD.length)
          ++ u32le JD.length) ++ (u32le jsonTag ++ (JD
          ++ (u32le BD.length ++ (u32le binTag ++ BD)))) := by
        rw [hB]
        try simp [List.append_assoc]
      rw [hsp, readU32_at _ _ 16 (by simp [List.length_append, u32le_length])]
      exact readU32_at_zero _ _ (by decide)
    have e20 : getBytes B 20 JD.length = some JD := by
      have hsp : B = (u32le glbMagic ++ u32le 2 ++ u32le (12 + 8 + JD.length + 8 + BD.length)
          ++ u32le JD.length ++ u32le jsonTag) ++ (JD
          ++ (u32le BD.length ++ (u32le binTag ++ BD))) := by
        rw [hB]
        try simp [List.append_assoc]
      rw [hsp, getBytes_at _ _ 20 _ (by simp [List.length_append, u32le_length])]
      exact getBytes_prefix _ _ _ rfl
    have ebl : readU32 B (20 + JD.length) = some BD.length := by
      have hsp : B = (u32le glbMagic ++ u32le 2 ++ u32le (12 + 8 + JD.length + 8 + BD.length)
          ++ u32le JD.length ++ u32le jsonTag ++ JD)
          ++ (u32le BD.length ++ (u32le binTag ++ BD)) := by
        rw [hB]
        try simp [List.append_assoc]
      rw [hsp, readU32_at _ _ (20 + JD.length)
        (by simp [List.length_append, u32le_length]; omega)]
      exact readU32_at_zero _ _ hltb
    have ebt : readU32 B (20 + JD.length + 4) = some binTag := by
      have hsp : B = (u32le glbMagic ++ u32le 2 ++ u32le (12 + 8 + JD.length + 8 + BD.length)
          ++ u32le JD.length ++ u32le jsonTag ++ JD ++ u32le BD.length)
          ++ (u32le binTag ++ BD) := by
        rw [hB]
        try simp [List.append_assoc]
      rw [hsp, readU32_at _ _ (20 + JD.length + 4)
        (by simp [List.length_append, u32le_length]; omega)]
      exact readU32_at_zero _ _ (by decide)
    have ebd : getBytes B (20 + JD.length + 8) BD.length = some BD := by
      have hsp : B = (u32le glbMagic ++ u32le 2 ++ u32le (12 + 8 + JD.length + 8 + BD.length)
          ++ u32le JD.length ++ u32le jsonTag ++ JD ++ u32le BD.length ++ u32le binTag)
          ++ BD := by
        rw [hB]
        try simp [List.append_assoc]
      rw [hsp, getBytes_at _ _ (20 + JD.length + 8) _
        (by simp [List.length_append, u32le_length]; omega)]
      exact getBytes_all _ _ rfl
    have elen : B.length = 20 + JD.length + 8 + BD.length := by
      rw [hB]
      simp only [List.length_append, u32le_length]
      try omega
    have hcond : 20 + JD.length < B.length := by omega
    have edoc2 : jsonParse JD = some doc := edoc
    simp [parseGLB, e0, e4, e12, e16, e20, edoc2, hcond, ebl, ebt, ebd]
    rw [hBD]
    simp [padBin]

/-! ### JS object and array operations on documents -/

/-- Association-list lookup for object members. -/
def lookupKey : List (Bytes × Json) → Bytes → Option Json
  | [], _ => none
  | (k1, v) :: ms, k => if k1 = k then some v else lookupKey ms k

/-- Property read `obj.k`: `none` is JS `undefined` (also for reads off a
non-object, which for the fields involved never throw in the sources). -/
def getField : Json → Bytes → Option Json
  | .obj m, k => lookupKey m k
  | _, _ => none

/-- Property write `obj.k = v`: replaces the value at an existing key in
place, else appends a new binding (JS insertion-order semantics). -/
def setKey : List (Bytes × Json) → Bytes → Json → List (Bytes × Json)
  | [], k, v => [(k, v)]
  | (k1, v1) :: ms, k, v =>
      if k1 = k then (k1, v) :: ms else (k1, v1) :: setKey ms k v

/-- `obj.k = v` on a document value (no-op off an object). -/
def setField : Json → Bytes → Json → Json
  | .obj m, k, v => .obj (setKey m k v)
  | j, _, _ => j

/-- `delete obj.k`. -/
def delKey (m : List (Bytes × Json)) (k : Bytes) : List (Bytes × Json) :=
  m.filter (fun p => decide (p.1 ≠ k))

/-- `delete obj.k` on a document value. -/
def delField : Json → Bytes → Json
  | .obj m, k => .obj (delKey m k)
  | j, _ => j

/-- JS truthiness of a JSON value. -/
def jsTruthy : Json → Bool
  | .null => false
  | .bool b => b
  | .num n => decide (n ≠ 0)
  | .str s => decide (s ≠ [])
  | .arr _ => true
  | .obj _ => true

/-- Truthiness of an optional property (`undefined` is falsy). -/
def jsTruthyOpt : Option Json → Bool
  | none => false
  | some j => jsTruthy j

/-- `a[i]` with a JSON index value: a non-negative number indexes an array;
anything else is JS `undefined`. -/
def jsIndex : Json → Json → Option Json
  | .arr l, .num n => if n < 0 then none else l[n.toNat]?
  | _, _ => none

/-! ### Base64 (`btoa` as used by `uint8ToBase64`)

The source accumulates the binary string in 8192-byte chunks before one
`btoa` call; the chunking is pure concatenation and does not change the
encoded output, so the encoder is modelled directly on the byte string. -/

/-- The RFC 4648 base64 alphabet: 6-bit value to ASCII code. -/
def b64char (s : Nat) : Nat :=
  if s < 26 then 65 + s
  else if s < 52 then 97 + (s - 26)
  else if s < 62 then 48 + (s - 52)
  else if s = 62 then 43 else 47

/-- `btoa` of a byte string: 3-byte groups to 4 alphabet bytes, `=` padded. -/
def b64encode : Bytes → Bytes
  | [] => []
  | [a] => [b64char (a / 4), b64char (a % 4 * 16), 61, 61]
  | [a, b] => [b64char (a / 4), b64char (a % 4 * 16 + b / 16), b64char (b % 16 * 4), 61]
  | a :: b :: c :: rest =>
      b64char (a / 4) :: b64char (a % 4 * 16 + b / 16)
        :: b64char (b % 16 * 4 + c / 64) :: b64char (c % 64) :: b64encode rest

/-- Inverse of the base64 alphabet; `none` for non-alphabet bytes. -/
def b64val (c : Nat) : Option Nat :=
  if 65 ≤ c ∧ c ≤ 90 then some (c - 65)
  else if 97 ≤ c ∧ c ≤ 122 then some (c - 97 + 26)
  else if 48 ≤ c ∧ c ≤ 57 then some (c - 48 + 52)
  else if c = 43 then some 62
  else if c = 47 then some 63
  else none

/-- Standard base64 decoding (`=` padding, canonical zero padding bits). -/
def b64decode : Bytes → Option Bytes
  | [] => some []
  | [e1, e2, 61, 61] => do
      let s1 ← b64val e1
      let s2 ← b64val e2
      if s2 % 16 = 0 then pure [s1 * 4 + s2 / 16] else none
  | [e1, e2, e3, 61] => do
      let s1 ← b64val e1
      let s2 ← b64val e2
      let s3 ← b64val e3
      if s3 % 4 = 0 then pure [s1 * 4 + s2 / 16, s2 % 16 * 16 + s3 / 4] else none
  | e1 :: e2 :: e3 :: e4 :: rest => do
      let s1 ← b64val e1
      let s2 ← b64val e2
      let s3 ← b64val e3
      let s4 ← b64val e4
      let tail ← b64decode rest
      pure ((s1 * 4 + s2 / 16) :: (s2 % 16 * 16 + s3 / 4) :: (s3 % 4 * 64 + s4) :: tail)
  | _ => none

theorem b64val_char (s : Nat) (h : s < 64) : b64val (b64char s) = some s := by
  have : ∀ t < 64, b64val (b64char t) = some t := by decide
  exact this s h

/-- Base64 decoding is a left inverse of encoding on byte strings. -/
theorem b64char_ne_61 (s : Nat) : b64char s ≠ 61 := by
  by_cases h64 : s < 64
  · have : ∀ t < 64, b64char t ≠ 61 := by decide
    exact this s h64
  · unfold b64char
    rw [if_neg (by omega), if_neg (by omega), if_neg (by omega), if_neg (by omega)]
    omega

theorem b64decode_encode : ∀ bs : Bytes, (∀ x ∈ bs, x < 256) →
    b64decode (b64encode bs) = some bs
  | [], _ => by decide
  | [a], h => by
    have ha : a < 256 := h a (by simp)
    rw [show b64encode [a] = [b64char (a / 4), b64char (a % 4 * 16), 61, 61] from rfl]
    rw [b64decode.eq_def]
    simp [b64val_char (a / 4) (by omega), b64val_char (a % 4 * 16) (by omega)]
    omega
  | [a, b], h => by
    have ha : a < 256 := h a (by simp)
    have hb : b < 256 := h b (by simp)
    have h3 := b64char_ne_61 (b % 16 * 4)
    rw [show b64encode [a, b]
      = [b64char (a / 4), b64char (a % 4 * 16 + b / 16), b64char (b % 16 * 4), 61] from rfl]
    rw [b64decode.eq_def]
    simp [h3, b64val_char (a / 4) (by omega), b64val_char (a % 4 * 16 + b / 16) (by omega),
      b64val_char (b % 16 * 4) (by omega)]
    omega
  | [a, b, c], h => by
    have ha : a < 256 := h a (by simp)
    have hb : b < 256 := h b (by simp)
    have hc : c < 256 := h c (by simp)
    have h3 := b64char_ne_61 (b % 16 * 4 + c / 64)
    have h4 := b64char_ne_61 (c % 64)
    rw [show b64encode [a, b, c]
      = [b64char (a / 4), b64char (a % 4 * 16 + b / 16),
         b64char (b % 16 * 4 + c / 64), b64char (c % 64)] from rfl]
    have hnil : b64decode [] = some ([] : Bytes) := by decide
    rw [b64decode.eq_def]
    simp [h3, h4, hnil, b64val_char (a / 4) (by omega),
      b64val_char (a % 4 * 16 + b / 16) (by omega),
      b64val_char (b % 16 * 4 + c / 64) (by omega), b64val_char (c % 64) (by omega)]
    omega
  | a :: b :: c :: d :: rest, h => by
    have ha : a < 256 := h a (by simp)
    have hb : b < 256 := h b (by simp)
    have hc : c < 256 := h c (by simp)
    have ih := b64decode_encode (d :: rest) (fun x hx => h x (by simp at hx ⊢; tauto))
    obtain ⟨w, ws, hw⟩ : ∃ w ws, b64encode (d :: rest) = w :: ws := by
      cases rest with
      | nil => exact ⟨_, _, rfl⟩
      | cons e rest2 =>
        cases rest2 with
        | nil => exact ⟨_, _, rfl⟩
        | cons f rest3 => exact ⟨_, _, rfl⟩
    rw [show b64encode (a :: b :: c :: d :: rest)
      = b64char (a / 4) :: b64char (a % 4 * 16 + b / 16)
        :: b64char (b % 16 * 4 + c / 64) :: b64char (c % 64) :: b64encode (d :: rest)
      from rfl]
    rw [hw] at ih ⊢
    rw [b64decode.eq_def]
    simp [ih, b64val_char (a / 4) (by omega), b64val_char (a % 4 * 16 + b / 16) (by omega),
      b64val_char (b % 16 * 4 + c / 64) (by omega), b64val_char (c % 64) (by omega)]
    omega

/-! ### glTF property names (ASCII byte strings) -/

def kImages : Bytes := [105, 109, 97, 103, 101, 115]
def kBufferViews : Bytes := [98, 117, 102, 102, 101, 114, 86, 105, 101, 119, 115]
def kBuffers : Bytes := [98, 117, 102, 102, 101, 114, 115]
def kTextures : Bytes := [116, 101, 120, 116, 117, 114, 101, 115]
def kMaterials : Bytes := [109, 97, 116, 101, 114, 105, 97, 108, 115]
def kAccessors : Bytes := [97, 99, 99, 101, 115, 115, 111, 114, 115]
def kUri : Bytes := [117, 114, 105]
def kMimeType : Bytes := [109, 105, 109, 101, 84, 121, 112, 101]
def kBufferView : Bytes := [98, 117, 102, 102, 101, 114, 86, 105, 101, 119]
def kByteOffset : Bytes := [98, 121, 116, 101, 79, 102, 102, 115, 101, 116]
def kByteLength : Bytes := [98, 121, 116, 101, 76, 101, 110, 103, 116, 104]
def kBuffer : Bytes := [98, 117, 102, 102, 101, 114]
def kName : Bytes := [110, 97, 109, 101]
def kSource : Bytes := [115, 111, 117, 114, 99, 101]
def kSparse : Bytes := [115, 112, 97, 114, 115, 101]
def kCount : Bytes := [99, 111, 117, 110, 116]
def kType : Bytes := [116, 121, 112, 101]
def kIndices : Bytes := [105, 110, 100, 105, 99, 101, 115]
def kValues : Bytes := [118, 97, 108, 117, 101, 115]
def kComponentType : Bytes := [99, 111, 109, 112, 111, 110, 101, 110, 116, 84, 121, 112, 101]
def kIndex : Bytes := [105, 110, 100, 101, 120]
def kPbr : Bytes := [112, 98, 114, 77, 101, 116, 97, 108, 108, 105, 99, 82, 111, 117,
  103, 104, 110, 101, 115, 115]
def kBaseColorTexture : Bytes := [98, 97, 115, 101, 67, 111, 108, 111, 114, 84, 101,
  120, 116, 117, 114, 101]
def kMetallicRoughnessTexture : Bytes := [109, 101, 116, 97, 108, 108, 105, 99, 82,
  111, 117, 103, 104, 110, 101, 115, 115, 84, 101, 120, 116, 117, 114, 101]
def kNormalTexture : Bytes := [110, 111, 114, 109, 97, 108, 84, 101, 120, 116, 117, 114, 101]
def kOcclusionTexture : Bytes := [111, 99, 99, 108, 117, 115, 105, 111, 110, 84, 101,
  120, 116, 117, 114, 101]
def kEmissiveTexture : Bytes := [101, 109, 105, 115, 115, 105, 118, 101, 84, 101, 120,
  116, 117, 114, 101]

/-- "VEC3" -/
def sVEC3 : Bytes := [86, 69, 67, 51]

/-- "VEC2" -/
def sVEC2 : Bytes := [86, 69, 67, 50]

/-- "SCALAR" -/
def sSCALAR : Bytes := [83, 67, 65, 76, 65, 82]

/-- "stripped_" -/
def sStripped : Bytes := [115, 116, 114, 105, 112, 112, 101, 100, 95]

/-- "data:" -/
def sDataColon : Bytes := [100, 97, 116, 97, 58]

/-- ";base64," -/
def sSemiBase64 : Bytes := [59, 98, 97, 115, 101, 54, 52, 44]

/-! ### Inline-mode relocation: `preprocessGLB` -/

/-- JS string interpolation of a property value (composite values, which the
image data model never carries in a `mimeType`, are abstracted). -/
def interp : Json → Bytes
  | .str s => s
  | .num n => intDigits n
  | .bool true => [116, 114, 117, 101]
  | .bool false => [102, 97, 108, 115, 101]
  | .null => [110, 117, 108, 108]
  | .arr _ => []
  | .obj _ => [91, 111, 98, 106, 101, 99, 116, 32, 79, 98, 106, 101, 99, 116, 93]

/-- `x || 0` on an optional property used as a byte offset/length (non-numeric
truthy values, which no glTF buffer view carries, are abstracted to 0). -/
def numOrZero : Option Json → Int
  | some (.num n) => n
  | _ => 0

/-- `TypedArray.subarray(s, e)`: negative indices count from the end, both
ends clamp to the buffer. -/
def subarrayClamp (l : Bytes) (s e : Int) : Bytes :=
  let len : Int := l.length
  let s2 := (if s < 0 then max (len + s) 0 else min s len).toNat
  let e2 := (if e < 0 then max (len + e) 0 else min e len).toNat
  (l.take e2).drop s2

/-- The per-image body of `preprocessGLB`'s loop: an image with a
`bufferView` field and a truthy `mimeType` is rewritten to a base64 data
URI (and its `bufferView` deleted); every other image is left alone.
Returns the image and whether it was modified; `none` models a thrown
error (`bufferViews[idx]` undefined or null). -/
def inlineImage (bvsJ : Json) (bin : Bytes) (img : Json) : Option (Json × Bool) :=
  match getField img kBufferView with
  | none => some (img, false)
  | some bvIdx =>
      if jsTruthyOpt (getField img kMimeType) then
        match jsIndex bvsJ bvIdx with
        | none => none
        | some .null => none
        | some bv =>
            let start := numOrZero (getField bv kByteOffset)
            let stop := match getField bv kByteLength with
              | some (.num m) => start + m
              | _ => 0
            let imageData := subarrayClamp bin start stop
            let base64 := b64encode imageData
            let uri := sDataColon ++ interp ((getField img kMimeType).getD .null)
              ++ sSemiBase64 ++ base64
            some (delField (setField img kUri (.str uri)) kBufferView, true)
      else some (img, false)

/-- `preprocessGLB`'s image loop over the whole `images` array. -/
def inlineImages (bvsJ : Json) (bin : Bytes) : List Json → Option (List Json × Bool)
  | [] => some ([], false)
  | img :: rest => do
      let (img2, m1) ← inlineImage bvsJ bin img
      let (rest2, m2) ← inlineImages bvsJ bin rest
      pure (img2 :: rest2, m1 || m2)

/-- The document-level core of `preprocessGLB` (after chunk parsing and the
`!json.images || !json.bufferViews` early return): rewrite the images,
report whether anything was modified. -/
def inlineDocCore (json : Json) (bin : Bytes) : Option (Json × Bool) :=
  match getField json kImages, getField json kBufferViews with
  | some imgsJ, some bvsJ =>
      if jsTruthy imgsJ && jsTruthy bvsJ then
        match imgsJ with
        | .arr imgs =>
            (inlineImages bvsJ bin imgs).map (fun p =>
              (setField json kImages (.arr p.1), p.2))
        | _ => none
      else some (json, false)
  | _, _ => some (json, false)

/-- `preprocessGLB`: buffer in, buffer out; the original buffer is returned
for non-containers and when nothing was modified; `none` models a thrown
error. -/
def preprocessGLB (b : Bytes) : Option Bytes := do
  let magic ← readU32 b 0
  if magic ≠ glbMagic then pure b else do
  let ver ← readU32 b 4
  if ver ≠ 2 then pure b else do
  let jsonChunkLength ← readU32 b 12
  let jsonChunkType ← readU32 b 16
  if jsonChunkType ≠ jsonTag then pure b else do
  let jsonBytes ← getBytes b 20 jsonChunkLength
  let json ← jsonParse jsonBytes
  let off := 20 + jsonChunkLength
  let binOpt ← if off < b.length then do
      let blen ← readU32 b off
      let btype ← readU32 b (off + 4)
      if btype = binTag then (getBytes b (off + 8) blen).map some else pure none
    else pure none
  match binOpt with
  | none => pure b
  | some bin => do
      let (json2, modified) ← inlineDocCore json bin
      if modified then pure (serializeGLB json2 (some bin)) else pure b

/-! ### Strip-mode relocation: `stripEmbeddedTextures` -/

/-- Is `images[i]` embedded: has a `bufferView` and no (falsy) `uri`. -/
def isEmbeddedImg (img : Json) : Bool :=
  (getField img kBufferView).isSome && !(jsTruthyOpt (getField img kUri))

/-- The `embeddedImageIndices` set, in index order. -/
def embeddedImgIdxs (imgs : List Json) : List Nat :=
  (List.range imgs.length).filter (fun i => isEmbeddedImg (imgs.getD i .null))

/-- Does a texture reference one of the embedded images
(`tex.source !== undefined && embeddedImageIndices.has(tex.source)`)? -/
def texRefsEmbedded (embImgs : List Nat) (tex : Json) : Bool :=
  match getField tex kSource with
  | some (.num n) => decide (0 ≤ n) && decide (n.toNat ∈ embImgs)
  | _ => false

/-- The `embeddedTextureIndices` set, in index order. -/
def embeddedTexIdxs (embImgs : List Nat) (texs : List Json) : List Nat :=
  (List.range texs.length).filter (fun t => texRefsEmbedded embImgs (texs.getD t .null))

/-- `slot?.index !== undefined && embeddedTextureIndices.has(slot.index)`. -/
def slotRefsEmbedded (embTex : List Nat) (slot : Option Json) : Bool :=
  match slot with
  | some slotJ =>
      match getField slotJ kIndex with
      | some (.num n) => decide (0 ≤ n) && decide (n.toNat ∈ embTex)
      | _ => false
  | none => false

/-- The per-material texture-slot removal of `stripEmbeddedTextures`:
delete each of the five slots whose `index` is an embedded texture. -/
def stripMat (embTex : List Nat) (mat : Json) : Json :=
  let mat1 := match getField mat kPbr with
    | some pbr =>
        let p1 := if slotRefsEmbedded embTex (getField pbr kBaseColorTexture)
          then delField pbr kBaseColorTexture else pbr
        let p2 := if slotRefsEmbedded embTex (getField p1 kMetallicRoughnessTexture)
          then delField p1 kMetallicRoughnessTexture else p1
        setField mat kPbr p2
    | none => mat
  let mat2 := if slotRefsEmbedded embTex (getField mat1 kNormalTexture)
    then delField mat1 kNormalTexture else mat1
  let mat3 := if slotRefsEmbedded embTex (getField mat2 kOcclusionTexture)
    then delField mat2 kOcclusionTexture else mat2
  if slotRefsEmbedded embTex (getField mat3 kEmissiveTexture)
    then delField mat3 kEmissiveTexture else mat3

/-- The `{name: "stripped_<i>"}` placeholder. -/
def strippedPlaceholder (i : Nat) : Json :=
  .obj [(kName, .str (sStripped ++ natDigits i))]

/-- The document-level core of `stripEmbeddedTextures`: detach material
slots referencing embedded-image textures, then replace the embedded image
entries by placeholders.  Returns the rewritten document and whether
anything was stripped (`false` reproducing the source's early returns);
`none` models a thrown error (truthy non-array `images`/`textures`/
`materials`). -/
def stripDocCore (json : Json) : Option (Json × Bool) :=
  match getField json kImages with
  | none => some (json, false)
  | some (.arr imgs) =>
      if imgs.length = 0 then some (json, false) else
      let embImgs := embeddedImgIdxs imgs
      if embImgs.length = 0 then some (json, false) else
      let embTexOpt : Option (List Nat) :=
        match getField json kTextures with
        | some (.arr texs) => some (embeddedTexIdxs embImgs texs)
        | some t => if jsTruthy t then none else some []
        | none => some []
      match embTexOpt with
      | none => none
      | some embTex =>
          let json2Opt : Option Json :=
            match getField json kMaterials with
            | some (.arr mats) =>
                some (setField json kMaterials (.arr (mats.map (stripMat embTex))))
            | some t => if jsTruthy t then none else some json
            | none => some json
          match json2Opt with
          | none => none
          | some json2 =>
              let imgs2 := imgs.mapIdx (fun i img =>
                if i ∈ embImgs then strippedPlaceholder i else img)
              some (setField json2 kImages (.arr imgs2), true)
  | some imagesJ => if jsTruthy imagesJ then none else some (json, false)

/-- `stripEmbeddedTextures`: buffer in, buffer out; the original buffer is
returned for non-containers and when there is nothing to strip; `none`
models a thrown error. -/
def stripGLB (b : Bytes) : Option Bytes := do
  let magic ← readU32 b 0
  if magic ≠ glbMagic then pure b else do
  let ver ← readU32 b 4
  if ver ≠ 2 then pure b else do
  let jsonChunkLength ← readU32 b 12
  let jsonChunkType ← readU32 b 16
  if jsonChunkType ≠ jsonTag then pure b else do
  let jsonBytes ← getBytes b 20 jsonChunkLength
  let json ← jsonParse jsonBytes
  let off := 20 + jsonChunkLength
  let binOpt ← if off < b.length then do
      let blen ← readU32 b off
      let btype ← readU32 b (off + 4)
      if btype = binTag then (getBytes b (off + 8) blen).map some else pure none
    else pure none
  let (json2, changed) ← stripDocCore json
  if changed then pure (serializeGLB json2 binOpt) else pure b

/-! ### Sparse-to-dense accessor expansion (the densify script) -/

/-- `Buffer.readUInt8(o)`: throws when out of range or negative. -/
def readU8 (b : Bytes) (o : Int) : Option Nat :=
  if o < 0 then none else b[o.toNat]?

/-- `Buffer.readUInt16LE(o)`. -/
def readU16le (b : Bytes) (o : Int) : Option Nat :=
  if o < 0 then none
  else
    match b[o.toNat]?, b[o.toNat + 1]? with
    | some x, some y => some (x + y * 256)
    | _, _ => none

/-- `Buffer.readUInt32LE(o)` with a possibly negative offset. -/
def readU32i (b : Bytes) (o : Int) : Option Nat :=
  if o < 0 then none else readU32 b o.toNat

/-- Read sparse index `j` per `sparse.indices.componentType`
(5123 → 2 bytes, 5125 → 4 bytes, anything else → 1 byte, little-endian). -/
def readSparseIdx (bin : Bytes) (idxOff : Int) (ctype : Option Json) (j : Nat) : Option Nat :=
  match ctype with
  | some (.num 5123) => readU16le bin (idxOff + (j : Int) * 2)
  | some (.num 5125) => readU32i bin (idxOff + (j : Int) * 4)
  | _ => readU8 bin (idxOff + (j : Int))

/-- Overwrite `w.length` bytes of `l` at position `pos` (callers check
bounds first). -/
def setBytes (l : Bytes) (pos : Nat) (w : Bytes) : Bytes :=
  l.take pos ++ w ++ l.drop (pos + w.length)

/-- `dense.writeFloatLE(binChunk.readFloatLE(src), dst)`: a four-byte copy
(the float32 read/write round trip is byte-exact; NaN payloads are
abstracted to byte copies).  Throws on negative or out-of-range offsets. -/
def floatCopy (bin : Bytes) (src : Int) (dense : Bytes) (dst : Nat) : Option Bytes :=
  if src < 0 then none
  else
    match getBytes bin src.toNat 4 with
    | none => none
    | some w => if dst + 4 ≤ dense.length then some (setBytes dense dst w) else none

/-- The inner `k` loop: copy the `elemSize` floats of sparse entry `j` to
dense element `idx`. -/
def writeElem (bin : Bytes) (valOff : Int) (bytesPerElem elemSize : Nat)
    (j idx : Nat) (dense : Bytes) : Option Bytes :=
  (List.range elemSize).foldlM (fun d k =>
    floatCopy bin (valOff + (j * bytesPerElem : Nat) + (k * 4 : Nat)) d
      (idx * bytesPerElem + k * 4)) dense

/-- The element size in floats: VEC3 → 3, VEC2 → 2, SCALAR → 1, default 4. -/
def accElemSize (acc : Json) : Nat :=
  match getField acc kType with
  | some (.str t) =>
      if t = sVEC3 then 3 else if t = sVEC2 then 2 else if t = sSCALAR then 1 else 4
  | _ => 4

/-- The effectful part of the densify loop body for one sparse accessor:
decode `count`/`type`, build the base dense buffer, resolve the sparse
`indices`/`values` buffer views, apply all sparse writes.  Returns the
current bufferView list and the finished dense buffer. -/
def expandSparse (bvsOpt : Option Json) (bin : Bytes) (acc sp : Json) :
    Option (List Json × Bytes) := do
  let count ← match getField acc kCount with
    | some (.num n) => if 0 ≤ n then some n.toNat else none
    | _ => none
  let elemSize := accElemSize acc
  let bytesPerElem := elemSize * 4
  let dense0 := List.replicate (count * bytesPerElem) 0
  let dense1 ← match getField acc kBufferView with
    | none => some dense0
    | some bvIdx => do
        let bvsJ ← bvsOpt
        let bv ← jsIndex bvsJ bvIdx
        match bv with
        | .null => none
        | _ =>
            let srcOff := numOrZero (getField bv kByteOffset)
              + numOrZero (getField acc kByteOffset)
            if srcOff < 0 then none
            else
              let copied := (bin.drop srcOff.toNat).take (count * bytesPerElem)
              some (copied ++ List.replicate (count * bytesPerElem - copied.length) 0)
  let ind ← getField sp kIndices
  let vals ← getField sp kValues
  let bvsJ ← bvsOpt
  let idxBv ← jsIndex bvsJ ((getField ind kBufferView).getD .null)
  let valBv ← jsIndex bvsJ ((getField vals kBufferView).getD .null)
  match idxBv, valBv with
  | .null, _ => none
  | _, .null => none
  | _, _ => do
      let idxOff := numOrZero (getField idxBv kByteOffset)
        + numOrZero (getField ind kByteOffset)
      let valOff := numOrZero (getField valBv kByteOffset)
        + numOrZero (getField vals kByteOffset)
      let ctype := getField ind kComponentType
      let scount := match getField sp kCount with
        | some (.num n) => n.toNat
        | _ => 0
      let dense2 ← (List.range scount).foldlM (fun d j => do
          let idx ← readSparseIdx bin idxOff ctype j
          writeElem bin valOff bytesPerElem elemSize j idx d) dense1
      let bvl ← match bvsJ with
        | .arr bvl => some bvl
        | _ => none
      pure (bvl, dense2)

/-- The body of the densify loop for one accessor: pass non-sparse
accessors through; expand a sparse accessor into a fresh dense buffer
appended to the binary chunk, push the new buffer view, rewrite the
accessor and delete its `sparse` field. -/
def processAccessor (bvsOpt : Option Json) (bin : Bytes) (acc : Json) :
    Option (Json × Option Json × Bytes) :=
  match getField acc kSparse with
  | none => some (acc, bvsOpt, bin)
  | some sp =>
      if ¬ jsTruthy sp then some (acc, bvsOpt, bin) else
      (expandSparse bvsOpt bin acc sp).map (fun p =>
        (delField (setField (setField acc kBufferView (.num p.1.length))
            kByteOffset (.num 0)) kSparse,
         some (.arr (p.1 ++ [.obj [(kBuffer, .num 0),
            (kByteOffset, .num bin.length), (kByteLength, .num p.2.length)]])),
         bin ++ p.2))

/-- The densify loop over all accessors, threading the (growing) buffer
view array and binary chunk. -/
def densifyAccessors : List Json → Option Json → Bytes →
    Option (List Json × Option Json × Bytes)
  | [], bvsOpt, bin => some ([], bvsOpt, bin)
  | acc :: rest, bvsOpt, bin => do
      let (acc2, bvs2, bin2) ← processAccessor bvsOpt bin acc
      let (rest2, bvs3, bin3) ← densifyAccessors rest bvs2 bin2
      pure (acc2 :: rest2, bvs3, bin3)

/-- The document+chunk core of the densify script: run the accessor loop,
then set `buffers[0].byteLength` to the final binary chunk size. -/
def densifyDocCore (json : Json) (bin : Bytes) : Option (Json × Bytes) := do
  let accsJ ← getField json kAccessors
  let bvsOpt := getField json kBufferViews
  let (json2, bin2) ←
    match accsJ with
    | .arr accs => do
        let (accs2, bvs2, bin2) ← densifyAccessors accs bvsOpt bin
        let json2 := setField json kAccessors (.arr accs2)
        let json3 := match bvs2 with
          | some bv2 => if bvsOpt.isSome then setField json2 kBufferViews bv2 else json2
          | none => json2
        pure (json3, bin2)
    | _ => pure (json, bin)
  match getField json2 kBuffers with
  | some (.arr (b0 :: brest)) =>
      match b0 with
      | .obj m0 =>
          pure (setField json2 kBuffers
            (.arr (Json.obj (setKey m0 kByteLength (.num bin2.length)) :: brest)), bin2)
      | .null => none
      | _ => pure (json2, bin2)
  | _ => none

/-- The densify script's chunk walk: scan all chunks from offset 12, the
last JSON and BIN chunks win (`Buffer.slice` clamps). -/
def chunkWalk : Nat → Bytes → Nat → Option Json → Option Bytes →
    Option (Option Json × Option Bytes)
  | fuel, b, offset, jsonAcc, binAcc =>
    if offset < b.length then
      match fuel with
      | 0 => none
      | f + 1 => do
          let clen ← readU32 b offset
          let ctype ← readU32 b (offset + 4)
          let cdata := (b.drop (offset + 8)).take clen
          if ctype = jsonTag then do
            let j ← jsonParse cdata
            chunkWalk f b (offset + 8 + clen) (some j) binAcc
          else if ctype = binTag then
            chunkWalk f b (offset + 8 + clen) jsonAcc (some cdata)
          else
            chunkWalk f b (offset + 8 + clen) jsonAcc binAcc
    else some (jsonAcc, binAcc)

/-- The densify script end to end: chunk walk, accessor expansion,
re-serialization.  A missing JSON or BIN chunk throws (`undefined`
property access), hence `none`. -/
def densifyGLB (b : Bytes) : Option Bytes := do
  let (jsonOpt, binOpt) ← chunkWalk (b.length + 1) b 12 none none
  let json ← jsonOpt
  let bin ← binOpt
  let (json2, bin2) ← densifyDocCore json bin
  pure (serializeGLB json2 (some bin2))

/-- The top-level array at a document key (empty when absent or not an
array): observation helper for stating properties. -/
def docArr (json : Json) (k : Bytes) : List Json :=
  match getField json k with
  | some (.arr l) => l
  | _ => []

/-! ### Object-operation lemmas -/

theorem lookupKey_setKey_self (m : List (Bytes × Json)) (k : Bytes) (v : Json) :
    lookupKey (setKey m k v) k = some v := by
  induction m with
  | nil => simp [setKey, lookupKey]
  | cons p ms ih =>
    obtain ⟨k1, v1⟩ := p
    by_cases h : k1 = k
    · simp [setKey, lookupKey, h]
    · simp [setKey, lookupKey, h, ih]

theorem lookupKey_setKey_other (m : List (Bytes × Json)) (k k2 : Bytes) (v : Json)
    (h : k2 ≠ k) : lookupKey (setKey m k v) k2 = lookupKey m k2 := by
  have h' : k ≠ k2 := Ne.symm h
  induction m with
  | nil => simp [setKey, lookupKey, h']
  | cons p ms ih =>
    obtain ⟨k1, v1⟩ := p
    by_cases h1 : k1 = k
    · subst h1
      simp [setKey, lookupKey, h']
    · simp [setKey, lookupKey, h1, ih]

theorem lookupKey_delKey_self (m : List (Bytes × Json)) (k : Bytes) :
    lookupKey (delKey m k) k = none := by
  induction m with
  | nil => simp [delKey, lookupKey]
  | cons p ms ih =>
    obtain ⟨k1, v1⟩ := p
    by_cases h : k1 = k
    · simpa [delKey, List.filter_cons, h] using ih
    · simpa [delKey, List.filter_cons, h, lookupKey] using ih

theorem lookupKey_delKey_other (m : List (Bytes × Json)) (k k2 : Bytes) (h : k2 ≠ k) :
    lookupKey (delKey m k) k2 = lookupKey m k2 := by
  induction m with
  | nil => simp [delKey, lookupKey]
  | cons p ms ih =>
    obtain ⟨k1, v1⟩ := p
    by_cases h1 : k1 = k
    · subst h1
      have h' : ¬ k1 = k2 := fun hh => h (hh ▸ rfl)
      simpa [delKey, List.filter_cons, lookupKey, h'] using ih
    · by_cases h2 : k1 = k2
      · simp [delKey, List.filter_cons, h1, lookupKey, h2, h]
      · simpa [delKey, List.filter_cons, h1, lookupKey, h2] using ih

theorem setKey_lookup_self (m : List (Bytes × Json)) (k : Bytes) (v : Json)
    (h : lookupKey m k = some v) : setKey m k v = m := by
  induction m with
  | nil => simp [lookupKey] at h
  | cons p ms ih =>
    obtain ⟨k1, v1⟩ := p
    by_cases h1 : k1 = k
    · simp [lookupKey, h1] at h
      simp [setKey, h1, h]
    · simp [lookupKey, h1] at h
      simp [setKey, h1, ih h]

theorem getField_setField_self (m : List (Bytes × Json)) (k : Bytes) (v : Json) :
    getField (setField (.obj m) k v) k = some v := by
  simp [setField, getField, lookupKey_setKey_self]

theorem getField_setField_other (j : Json) (k k2 : Bytes) (v : Json) (h : k2 ≠ k) :
    getField (setField j k v) k2 = getField j k2 := by
  cases j <;> simp [setField, getField]
  exact lookupKey_setKey_other _ _ _ _ h

theorem getField_delField_self (j : Json) (k : Bytes) :
    getField (delField j k) k = none := by
  cases j <;> simp [delField, getField]
  exact lookupKey_delKey_self _ _

theorem getField_delField_other (j : Json) (k k2 : Bytes) (h : k2 ≠ k) :
    getField (delField j k) k2 = getField j k2 := by
  cases j <;> simp [delField, getField]
  exact lookupKey_delKey_other _ _ _ h

theorem setField_getField_self (j : Json) (k : Bytes) (v : Json)
    (h : getField j k = some v) : setField j k v = j := by
  cases j <;> simp [getField] at h
  simp [setField, setKey_lookup_self _ _ _ h]

/-! ### Read-back facts about the serializer's output -/

/-- The JSON chunk data the serializer emits: the stringified document,
space-padded to a multiple of four. -/
def jsonData (doc : Json) : Bytes :=
  Json.stringify doc ++ List.replicate (pad4 (Json.stringify doc).length) 32

theorem serializeGLB_some (doc : Json) (bb : Bytes) :
    serializeGLB doc (some bb)
      = u32le glbMagic ++ u32le 2
        ++ u32le (12 + 8 + (jsonData doc).length + 8 + (padBin bb).length)
        ++ u32le (jsonData doc).length ++ u32le jsonTag ++ jsonData doc
        ++ u32le (padBin bb).length ++ u32le binTag ++ padBin bb := rfl

theorem serializeGLB_none (doc : Json) :
    serializeGLB doc none
      = u32le glbMagic ++ u32le 2 ++ u32le (12 + 8 + (jsonData doc).length)
        ++ u32le (jsonData doc).length ++ u32le jsonTag ++ jsonData doc := rfl

theorem jsonData_len (doc : Json)
    (hj : (Json.stringify doc).length + 3 < 4294967296) :
    (jsonData doc).length < 4294967296 := by
  have := pad4_lt (Json.stringify doc).length
  simp only [jsonData, List.length_append, List.length_replicate]
  omega

theorem padBin_len (bb : Bytes) (hbb : bb.length + 3 < 4294967296) :
    (padBin bb).length < 4294967296 := by
  have := pad4_lt bb.length
  simp only [padBin, List.length_append, List.length_replicate]
  omega

/-- All the parser-side reads of a serialized container with a BIN chunk. -/
theorem serialize_reads_bin (doc : Json) (bb : Bytes)
    (hj : (Json.stringify doc).length + 3 < 4294967296)
    (hbb : bb.length + 3 < 4294967296) :
    readU32 (serializeGLB doc (some bb)) 0 = some glbMagic
    ∧ readU32 (serializeGLB doc (some bb)) 4 = some 2
    ∧ readU32 (serializeGLB doc (some bb)) 12 = some (jsonData doc).length
    ∧ readU32 (serializeGLB doc (some bb)) 16 = some jsonTag
    ∧ getBytes (serializeGLB doc (some bb)) 20 (jsonData doc).length = some (jsonData doc)
    ∧ readU32 (serializeGLB doc (some bb)) (20 + (jsonData doc).length)
        = some (padBin bb).length
    ∧ readU32 (serializeGLB doc (some bb)) (20 + (jsonData doc).length + 4) = some binTag
    ∧ getBytes (serializeGLB doc (some bb)) (20 + (jsonData doc).length + 8)
        (padBin bb).length = some (padBin bb)
    ∧ (serializeGLB doc (some bb)).length
        = 28 + (jsonData doc).length + (padBin bb).length := by
  have hlt := jsonData_len doc hj
  have hltb := padBin_len bb hbb
  set JD := jsonData doc with hJD
  set BD := padBin bb with hBD
  set T := 12 + 8 + JD.length + 8 + BD.length with hT
  have hB := serializeGLB_some doc bb
  rw [← hJD, ← hBD, ← hT] at hB
  refine ⟨?_, ?_, ?_, ?_, ?_, ?_, ?_, ?_, ?_⟩
  · rw [hB]
    simp only [List.append_assoc]
    exact readU32_at_zero _ _ (by decide)
  · have hsp : serializeGLB doc (some bb) = u32le glbMagic ++ (u32le 2
        ++ (u32le T ++ (u32le JD.length ++ (u32le jsonTag ++ (JD
        ++ (u32le BD.length ++ (u32le binTag ++ BD))))))) := by
      rw [hB]
      simp [List.append_assoc]
    rw [hsp, readU32_at _ _ 4 (u32le_length _)]
    exact readU32_at_zero _ _ (by decide)
  · have hsp : serializeGLB doc (some bb) = (u32le glbMagic ++ u32le 2 ++ u32le T)
        ++ (u32le JD.length ++ (u32le jsonTag ++ (JD
        ++ (u32le BD.length ++ (u32le binTag ++ BD))))) := by
      rw [hB]
      simp [List.append_assoc]
    rw [hsp, readU32_at _ _ 12 (by simp [List.length_append, u32le_length])]
    exact readU32_at_zero _ _ hlt
  · have hsp : serializeGLB doc (some bb) = (u32le glbMagic ++ u32le 2 ++ u32le T
        ++ u32le JD.length) ++ (u32le jsonTag ++ (JD
        ++ (u32le BD.length ++ (u32le binTag ++ BD)))) := by
      rw [hB]
      simp [List.append_assoc]
    rw [hsp, readU32_at _ _ 16 (by simp [List.length_append, u32le_length])]
    exact readU32_at_zero _ _ (by decide)
  · have hsp : serializeGLB doc (some bb) = (u32le glbMagic ++ u32le 2 ++ u32le T
        ++ u32le JD.length ++ u32le jsonTag) ++ (JD
        ++ (u32le BD.length ++ (u32le binTag ++ BD))) := by
      rw [hB]
      simp [List.append_assoc]
    rw [hsp, getBytes_at _ _ 20 _ (by simp [List.length_append, u32le_length])]
    exact getBytes_prefix _ _ _ rfl
  · have hsp : serializeGLB doc (some bb) = (u32le glbMagic ++ u32le 2 ++ u32le T
        ++ u32le JD.length ++ u32le jsonTag ++ JD)
        ++ (u32le BD.length ++ (u32le binTag ++ BD)) := by
      rw [hB]
      simp [List.append_assoc]
    rw [hsp, readU32_at _ _ (20 + JD.length)
      (by simp [List.length_append, u32le_length]; omega)]
    exact readU32_at_zero _ _ hltb
  · have hsp : serializeGLB doc (some bb) = (u32le glbMagic ++ u32le 2 ++ u32le T
        ++ u32le JD.length ++ u32le jsonTag ++ JD ++ u32le BD.length)
        ++ (u32le binTag ++ BD) := by
      rw [hB]
      simp [List.append_assoc]
    rw [hsp, readU32_at _ _ (20 + JD.length + 4)
      (by simp [List.length_append, u32le_length]; omega)]
    exact readU32_at_zero _ _ (by decide)
  · have hsp : serializeGLB doc (some bb) = (u32le glbMagic ++ u32le 2 ++ u32le T
        ++ u32le JD.length ++ u32le jsonTag ++ JD ++ u32le BD.length ++ u32le binTag)
        ++ BD := by
      rw [hB]
      try simp [List.append_assoc]
    rw [hsp, getBytes_at _ _ (20 + JD.length + 8) _
      (by simp [List.length_append, u32le_length]; omega)]
    exact getBytes_all _ _ rfl
  · rw [hB]
    simp only [List.length_append, u32le_length]
    omega

/-- All the parser-side reads of a serialized container without a BIN
chunk. -/
theorem serialize_reads_nobin (doc : Json)
    (hj : (Json.stringify doc).length + 3 < 4294967296) :
    readU32 (serializeGLB doc none) 0 = some glbMagic
    ∧ readU32 (serializeGLB doc none) 4 = some 2
    ∧ readU32 (serializeGLB doc none) 12 = some (jsonData doc).length
    ∧ readU32 (serializeGLB doc none) 16 = some jsonTag
    ∧ getBytes (serializeGLB doc none) 20 (jsonData doc).length = some (jsonData doc)
    ∧ (serializeGLB doc none).length = 20 + (jsonData doc).length := by
  have hlt := jsonData_len doc hj
  set JD := jsonData doc with hJD
  set T := 12 + 8 + JD.length with hT
  have hB := serializeGLB_none doc
  rw [← hJD, ← hT] at hB
  refine ⟨?_, ?_, ?_, ?_, ?_, ?_⟩
  · rw [hB]
    simp only [List.append_assoc]
    exact readU32_at_zero _ _ (by decide)
  · have hsp : serializeGLB doc none = u32le glbMagic ++ (u32le 2
        ++ (u32le T ++ (u32le JD.length ++ (u32le jsonTag ++ JD)))) := by
      rw [hB]
      simp [List.append_assoc]
    rw [hsp, readU32_at _ _ 4 (u32le_length _)]
    exact readU32_at_zero _ _ (by decide)
  · have hsp : serializeGLB doc none = (u32le glbMagic ++ u32le 2 ++ u32le T)
        ++ (u32le JD.length ++ (u32le jsonTag ++ JD)) := by
      rw [hB]
      simp [List.append_assoc]
    rw [hsp, readU32_at _ _ 12 (by simp [List.length_append, u32le_length])]
    exact readU32_at_zero _ _ hlt
  · have hsp : serializeGLB doc none = (u32le glbMagic ++ u32le 2 ++ u32le T
        ++ u32le JD.length) ++ (u32le jsonTag ++ JD) := by
      rw [hB]
      simp [List.append_assoc]
    rw [hsp, readU32_at _ _ 16 (by simp [List.length_append, u32le_length])]
    exact readU32_at_zero _ _ (by decide)
  · have hsp : serializeGLB doc none = (u32le glbMagic ++ u32le 2 ++ u32le T
        ++ u32le JD.length ++ u32le jsonTag) ++ JD := by
      rw [hB]
      try simp [List.append_assoc]
    rw [hsp, getBytes_at _ _ 20 _ (by simp [List.length_append, u32le_length])]
    exact getBytes_all _ _ rfl
  · rw [hB]
    simp only [List.length_append, u32le_length]
    try omega

/-! ### Facts about the inline-mode image loop -/

theorem subarrayClamp_eq (l : Bytes) (s e : Int) (hs : 0 ≤ s) (hse : s ≤ e)
    (he : e ≤ l.length) :
    subarrayClamp l s e = (l.drop s.toNat).take (e.toNat - s.toNat) := by
  have hs2 : (if s < 0 then max ((l.length : Int) + s) 0 else min s l.length).toNat
      = s.toNat := by
    rw [if_neg (by omega)]
    omega
  have he2 : (if e < 0 then max ((l.length : Int) + e) 0 else min e l.length).toNat
      = e.toNat := by
    rw [if_neg (by omega)]
    omega
  simp only [subarrayClamp, hs2, he2]
  rw [List.drop_take]

theorem inlineImages_get (bvsJ : Json) (bin : Bytes) (imgs : List Json) :
    ∀ imgs2 mf, inlineImages bvsJ bin imgs = some (imgs2, mf) →
      imgs2.length = imgs.length
      ∧ ∀ i, i < imgs.length →
          ∃ m, inlineImage bvsJ bin (imgs.getD i .null)
                 = some (imgs2.getD i .null, m) := by
  induction imgs with
  | nil =>
    intro imgs2 mf h
    simp only [inlineImages, Option.some.injEq, Prod.mk.injEq] at h
    obtain ⟨h1, _⟩ := h
    subst h1
    exact ⟨rfl, fun i hi => absurd hi (by simp)⟩
  | cons img rest ih =>
    intro imgs2 mf h
    rw [inlineImages] at h
    cases h1 : inlineImage bvsJ bin img with
    | none => rw [h1] at h; simp at h
    | some p =>
      obtain ⟨img2, m1⟩ := p
      rw [h1] at h
      cases h2 : inlineImages bvsJ bin rest with
      | none => rw [h2] at h; simp at h
      | some q =>
        obtain ⟨rest2, m2⟩ := q
        rw [h2] at h
        simp only [Option.bind_some, Option.pure_def, Option.some.injEq,
          Prod.mk.injEq, Option.bind_eq_bind, Option.some_bind] at h
        obtain ⟨he, _⟩ := h
        subst he
        obtain ⟨hlen, hget⟩ := ih rest2 m2 h2
        refine ⟨by simp [hlen], fun i hi => ?_⟩
        cases i with
        | zero => exact ⟨m1, by simpa using h1⟩
        | succ n =>
          simp only [List.getD_cons_succ]
          exact hget n (by simpa using hi)

/-! ## Claims -/

/-- C7: an input buffer whose magic word is not the glTF magic 0x46546C67,
or whose version word is not 2, or whose first chunk is not JSON-typed, is
returned unchanged (non-fatal passthrough) by both buffer-level transforms. -/
theorem c7_not_container_passthrough (b : Bytes)
    (h : (∃ m, readU32 b 0 = some m ∧ m ≠ glbMagic)
      ∨ (readU32 b 0 = some glbMagic ∧ ∃ v, readU32 b 4 = some v ∧ v ≠ 2)
      ∨ (readU32 b 0 = some glbMagic ∧ readU32 b 4 = some 2
          ∧ (∃ jl, readU32 b 12 = some jl)
          ∧ ∃ t, readU32 b 16 = some t ∧ t ≠ jsonTag)) :
    preprocessGLB b = some b ∧ stripGLB b = some b := by
  rcases h with ⟨m, hm, hne⟩ | ⟨h0, v, hv, hne⟩ | ⟨h0, h4, ⟨jl, hjl⟩, t, ht, hne⟩
  · constructor
    · simp [preprocessGLB, hm, hne]
    · simp [stripGLB, hm, hne]
  · constructor
    · simp [preprocessGLB, h0, hv, hne]
    · simp [stripGLB, h0, hv, hne]
  · constructor
    · simp [preprocessGLB, h0, h4, hjl, ht, hne]
    · simp [stripGLB, h0, h4, hjl, ht, hne]

/-- C7 witness: a concrete four-byte buffer with a wrong magic word passes
through both transforms unchanged. -/
theorem c7_not_container_passthrough_witness :
    preprocessGLB [0, 0, 0, 0] = some [0, 0, 0, 0]
    ∧ stripGLB [0, 0, 0, 0] = some [0, 0, 0, 0] :=
  c7_not_container_passthrough [0, 0, 0, 0]
    (Or.inl ⟨0, rfl, by decide⟩)

/-- C6: in every serialized container, the chunk data lengths read back by
the parser are multiples of 4; the JSON chunk data is the stringified
document padded with ASCII spaces (0x20) and the BIN chunk data is the
binary payload padded with zero bytes (0x00). -/
theorem c6_alignment_invariant (doc : Json) (bin : Option Bytes)
    (hj : (Json.stringify doc).length + 3 < 4294967296)
    (hb : ∀ bb, bin = some bb → bb.length + 3 < 4294967296) :
    ∃ jlen jdata, readU32 (serializeGLB doc bin) 12 = some jlen
      ∧ getBytes (serializeGLB doc bin) 20 jlen = some jdata
      ∧ jlen % 4 = 0
      ∧ jdata = Json.stringify doc
          ++ List.replicate (pad4 (Json.stringify doc).length) 32
      ∧ (∀ x ∈ jdata.drop (Json.stringify doc).length, x = 32)
      ∧ ∀ bb, bin = some bb →
          ∃ blen bdata, readU32 (serializeGLB doc bin) (20 + jlen) = some blen
            ∧ getBytes (serializeGLB doc bin) (20 + jlen + 8) blen = some bdata
            ∧ blen % 4 = 0
            ∧ bdata = bb ++ List.replicate (pad4 bb.length) 0
            ∧ ∀ x ∈ bdata.drop bb.length, x = 0 := by
  have hjpad : ∀ x ∈ (jsonData doc).drop (Json.stringify doc).length, x = 32 := by
    intro x hx
    rw [jsonData, List.drop_left] at hx
    exact List.eq_of_mem_replicate hx
  have hjmod : (jsonData doc).length % 4 = 0 := by
    simp only [jsonData, List.length_append, List.length_replicate]
    exact pad4_mod _
  cases bin with
  | none =>
    obtain ⟨_, _, h12, _, h20, _⟩ := serialize_reads_nobin doc hj
    exact ⟨(jsonData doc).length, jsonData doc, h12, h20, hjmod, rfl, hjpad,
      fun bb hbb => by cases hbb⟩
  | some bb =>
    obtain ⟨_, _, h12, _, h20, hbl, _, hbd, _⟩ :=
      serialize_reads_bin doc bb hj (hb bb rfl)
    refine ⟨(jsonData doc).length, jsonData doc, h12, h20, hjmod, rfl, hjpad,
      fun bb2 hbb2 => ?_⟩
    cases hbb2
    refine ⟨(padBin bb).length, padBin bb, hbl, hbd, ?_, rfl, ?_⟩
    · simp only [padBin, List.length_append, List.length_replicate]
      exact pad4_mod _
    · intro x hx
      rw [padBin, List.drop_left] at hx
      exact List.eq_of_mem_replicate hx

/-- C6 witness: the empty document with a one-byte BIN payload. -/
theorem c6_alignment_invariant_witness :
    ∃ jlen jdata, readU32 (serializeGLB (Json.obj []) (some [85])) 12 = some jlen
      ∧ getBytes (serializeGLB (Json.obj []) (some [85])) 20 jlen = some jdata
      ∧ jlen % 4 = 0
      ∧ jdata = Json.stringify (Json.obj [])
          ++ List.replicate (pad4 (Json.stringify (Json.obj [])).length) 32
      ∧ (∀ x ∈ jdata.drop (Json.stringify (Json.obj [])).length, x = 32)
      ∧ ∀ bb, (some [85] : Option Bytes) = some bb →
          ∃ blen bdata,
            readU32 (serializeGLB (Json.obj []) (some [85])) (20 + jlen) = some blen
            ∧ getBytes (serializeGLB (Json.obj []) (some [85])) (20 + jlen + 8) blen
                = some bdata
            ∧ blen % 4 = 0
            ∧ bdata = bb ++ List.replicate (pad4 bb.length) 0
            ∧ ∀ x ∈ bdata.drop bb.length, x = 0 :=
  c6_alignment_invariant (Json.obj []) (some [85]) (by decide)
    (fun bb hbb => by cases hbb; decide)

/-- A container whose BIN chunk data length (1) is not a multiple of four:
JSON chunk `{}` space-padded would be the serializer's output, but here the
JSON chunk is `{}` with declared length 2 and the BIN chunk is the single
byte 85, both permitted by the parser. -/
def c1CounterBuf : Bytes :=
  u32le glbMagic ++ u32le 2 ++ u32le 39 ++ u32le 2 ++ u32le jsonTag
    ++ [123, 125] ++ u32le 1 ++ u32le binTag ++ [85]

/-- C1 counterexample: this container parses to the empty document with BIN
chunk [85], but serializing that result and parsing again returns BIN chunk
[85, 0, 0, 0] — not byte-identical to the first parse's binary chunk. -/
theorem c1_roundtrip_counterexample :
    parseGLB c1CounterBuf = some (Json.obj [], some [85])
    ∧ parseGLB (serializeGLB (Json.obj []) (some [85]))
        = some (Json.obj [], some [85, 0, 0, 0])
    ∧ ([85, 0, 0, 0] : Bytes) ≠ [85] :=
  ⟨rfl, rfl, by decide⟩

/-- C1 (amended): for every parse-able container, serializing the parsed
result and parsing again yields the same document exactly, and a binary
chunk equal to the original zero-padded to a multiple of four; when the
original BIN chunk length is already a multiple of four the binary bytes
are identical. -/
theorem c1_roundtrip_padded (b : Bytes) (doc : Json) (obin : Option Bytes)
    (hp : parseGLB b = some (doc, obin))
    (hj : (Json.stringify doc).length + 3 < 4294967296)
    (hb : ∀ bb, obin = some bb → bb.length + 3 < 4294967296) :
    parseGLB (serializeGLB doc obin) = some (doc, obin.map padBin)
    ∧ ∀ bb, obin = some bb → bb.length % 4 = 0 →
        parseGLB (serializeGLB doc obin) = some (doc, some bb) := by
  have h1 := parseGLB_serializeGLB doc obin hj hb
  refine ⟨h1, fun bb hbb hal => ?_⟩
  cases hbb
  have hp4 : pad4 bb.length = 0 := by
    simp only [pad4]
    omega
  have hpb : padBin bb = bb := by
    simp [padBin, hp4]
  rw [h1]
  simp [hpb]

/-- C1 witness: the serializer's own output on the empty document with an
aligned four-byte BIN payload round-trips to identical binary bytes. -/
theorem c1_roundtrip_padded_witness :
    parseGLB (serializeGLB (Json.obj []) (some [1, 2, 3, 4]))
      = some (Json.obj [], (some [1, 2, 3, 4]).map padBin)
    ∧ ∀ bb, (some [1, 2, 3, 4] : Option Bytes) = some bb → bb.length % 4 = 0 →
        parseGLB (serializeGLB (Json.obj []) (some [1, 2, 3, 4]))
          = some (Json.obj [], some bb) :=
  c1_roundtrip_padded (serializeGLB (Json.obj []) (some [1, 2, 3, 4]))
    (Json.obj []) (some [1, 2, 3, 4]) rfl (by decide)
    (fun bb hbb => by cases hbb; decide)

/-- An embedded image (`bufferView`, no `uri`) that lacks a `mimeType`,
together with a buffer view for it. -/
def c4CounterDoc : Json :=
  .obj [(kImages, .arr [.obj [(kBufferView, .num 0)]]),
        (kBufferViews, .arr [.obj [(kByteLength, .num 1)]])]

/-- C4 counterexample: inline-mode relocation leaves an embedded image that
has no `mimeType` completely unchanged — afterwards it still has its
`bufferView` and no `uri` of any form, contradicting the claim that every
previously-embedded image ends with a base64 data URI and no `bufferView`. -/
theorem c4_inline_uri_counterexample :
    isEmbeddedImg (Json.obj [(kBufferView, Json.num 0)]) = true
    ∧ inlineDocCore c4CounterDoc [7] = some (c4CounterDoc, false)
    ∧ getField (Json.obj [(kBufferView, Json.num 0)]) kUri = none
    ∧ getField (Json.obj [(kBufferView, Json.num 0)]) kBufferView
        = some (Json.num 0) :=
  ⟨rfl, rfl, rfl, rfl⟩

theorem inlineImage_eq (bvsJ : Json) (bin : Bytes) (img : Json) (mime : Bytes)
    (bvIdx : Json) (bvm : List (Bytes × Json)) (off len : Int)
    (hbv : getField img kBufferView = some bvIdx)
    (hmime : getField img kMimeType = some (.str mime)) (hmne : mime ≠ [])
    (hji : jsIndex bvsJ bvIdx = some (.obj bvm))
    (hoff : lookupKey bvm kByteOffset = some (.num off))
    (hlen : lookupKey bvm kByteLength = some (.num len)) :
    inlineImage bvsJ bin img
      = some (delField (setField img kUri (.str (sDataColon ++ mime
          ++ sSemiBase64 ++ b64encode (subarrayClamp bin off (off + len)))))
          kBufferView, true) := by
  rw [inlineImage.eq_def, hbv, hmime]
  simp only [jsTruthyOpt, jsTruthy, ne_eq, hmne, not_false_eq_true, decide_True,
    if_true]
  rw [hji]
  simp [getField, hoff, hlen, numOrZero, interp]

/-- C4 (amended): after inline-mode relocation, every image that had a
`bufferView` and a (truthy) `mimeType` — rather than every embedded image —
carries a `data:<mimeType>;base64,<payload>` uri and no `bufferView`, and
the base64 payload decodes to exactly the image's bufferView byte range of
the binary chunk.  Embedded images without a `mimeType` are not converted. -/
theorem c4_inline_uri_validity (json : Json) (bin : Bytes) (imgs bvs : List Json)
    (json2 : Json) (mf : Bool) (i : Nat) (mime : Bytes) (bvi off len : Int)
    (bvm : List (Bytes × Json))
    (himgs : getField json kImages = some (.arr imgs))
    (hbvs : getField json kBufferViews = some (.arr bvs))
    (h : inlineDocCore json bin = some (json2, mf))
    (hbin : ∀ x ∈ bin, x < 256)
    (hi : i < imgs.length)
    (hmime : getField (imgs.getD i .null) kMimeType = some (.str mime))
    (hmne : mime ≠ [])
    (hbv : getField (imgs.getD i .null) kBufferView = some (.num bvi))
    (hbvi : 0 ≤ bvi)
    (hbvm : bvs[bvi.toNat]? = some (.obj bvm))
    (hoff : lookupKey bvm kByteOffset = some (.num off))
    (hlen : lookupKey bvm kByteLength = some (.num len))
    (hoffnn : 0 ≤ off) (hlennn : 0 ≤ len)
    (hrange : off.toNat + len.toNat ≤ bin.length) :
    ∃ imgs2, getField json2 kImages = some (.arr imgs2)
      ∧ imgs2.length = imgs.length
      ∧ getField (imgs2.getD i .null) kBufferView = none
      ∧ getField (imgs2.getD i .null) kUri
          = some (.str (sDataColon ++ mime ++ sSemiBase64
              ++ b64encode ((bin.drop off.toNat).take len.toNat)))
      ∧ b64decode (b64encode ((bin.drop off.toNat).take len.toNat))
          = some ((bin.drop off.toNat).take len.toNat) := by
  obtain ⟨m, rfl⟩ : ∃ m, json = .obj m := by
    cases json <;> simp [getField] at himgs
    exact ⟨_, rfl⟩
  rw [inlineDocCore.eq_def, himgs, hbvs] at h
  simp only [jsTruthy, Bool.and_self, if_true, Option.map_eq_some'] at h
  obtain ⟨⟨imgs2, mf2⟩, hii, hj2⟩ := h
  simp only [Prod.mk.injEq] at hj2
  obtain ⟨hj2, hmf⟩ := hj2
  subst hj2
  obtain ⟨hlen2, hget⟩ := inlineImages_get (.arr bvs) bin imgs imgs2 mf2 hii
  obtain ⟨mI, hI⟩ := hget i hi
  have hji : jsIndex (.arr bvs) (.num bvi) = some (.obj bvm) := by
    simp only [jsIndex, if_neg (by omega : ¬ bvi < 0)]
    exact hbvm
  rw [inlineImage_eq (.arr bvs) bin _ mime (.num bvi) bvm off len
    hbv hmime hmne hji hoff hlen] at hI
  simp only [Option.some.injEq, Prod.mk.injEq] at hI
  obtain ⟨hI, _⟩ := hI
  obtain ⟨mi, hmi⟩ : ∃ mi, imgs.getD i .null = .obj mi := by
    cases hx : imgs.getD i .null <;> rw [hx] at hbv <;> simp [getField] at hbv
    exact ⟨_, rfl⟩
  have hsc : subarrayClamp bin off (off + len)
      = (bin.drop off.toNat).take len.toNat := by
    rw [subarrayClamp_eq bin off (off + len) hoffnn (by omega) (by omega)]
    have hnn : (off + len).toNat - off.toNat = len.toNat := by omega
    rw [hnn]
  rw [hmi, hsc] at hI
  refine ⟨imgs2, getField_setField_self m kImages (.arr imgs2), hlen2, ?_, ?_, ?_⟩
  · rw [← hI]
    exact getField_delField_self _ kBufferView
  · rw [← hI, getField_delField_other _ kBufferView kUri (by decide)]
    exact getField_setField_self mi kUri _
  · refine b64decode_encode _ (fun x hx => hbin x ?_)
    exact List.mem_of_mem_drop (List.mem_of_mem_take hx)

/-- A one-image document whose image has a `bufferView` and a `mimeType`
"a", with a one-byte buffer view. -/
def c4WitDoc : Json :=
  .obj [(kImages, .arr [.obj [(kBufferView, .num 0), (kMimeType, .str [97])]]),
        (kBufferViews, .arr [.obj [(kByteOffset, .num 0), (kByteLength, .num 1)]])]

/-- Inline-mode output on `c4WitDoc` with binary chunk [7]: the image
carries the data URI `data:a;base64,Bw==` and no `bufferView`. -/
def c4WitOut : Json :=
  .obj [(kImages, .arr [.obj [(kMimeType, .str [97]),
          (kUri, .str [100, 97, 116, 97, 58, 97, 59, 98, 97, 115, 101, 54,
            52, 44, 66, 119, 61, 61])]]),
        (kBufferViews, .arr [.obj [(kByteOffset, .num 0), (kByteLength, .num 1)]])]

/-- C4 witness: the amended statement evaluated on `c4WitDoc` with binary
chunk [7]. -/
theorem c4_inline_uri_validity_witness :
    ∃ imgs2, getField c4WitOut kImages = some (.arr imgs2)
      ∧ imgs2.length
          = [Json.obj [(kBufferView, .num 0), (kMimeType, .str [97])]].length
      ∧ getField (imgs2.getD 0 .null) kBufferView = none
      ∧ getField (imgs2.getD 0 .null) kUri
          = some (.str (sDataColon ++ [97] ++ sSemiBase64
              ++ b64encode ((([7] : Bytes).drop (Int.toNat 0)).take (Int.toNat 1))))
      ∧ b64decode (b64encode ((([7] : Bytes).drop (Int.toNat 0)).take (Int.toNat 1)))
          = some ((([7] : Bytes).drop (Int.toNat 0)).take (Int.toNat 1)) :=
  c4_inline_uri_validity c4WitDoc [7]
    [.obj [(kBufferView, .num 0), (kMimeType, .str [97])]]
    [.obj [(kByteOffset, .num 0), (kByteLength, .num 1)]]
    c4WitOut true 0 [97] 0 0 1 [(kByteOffset, .num 0), (kByteLength, .num 1)]
    rfl rfl rfl (by decide) (by decide) rfl (by decide) rfl (by decide) rfl
    rfl rfl (by decide) (by decide) (by decide)

/-- An image that is NOT embedded in the spec's sense: it has a
`bufferView` but also an external `uri` "x" (and a `mimeType` "a"). -/
def c5CounterImg : Json :=
  .obj [(kBufferView, .num 0), (kUri, .str [120]), (kMimeType, .str [97])]

/-- A document holding `c5CounterImg` and a matching buffer view. -/
def c5CounterDoc : Json :=
  .obj [(kImages, .arr [c5CounterImg]),
        (kBufferViews, .arr [.obj [(kByteOffset, .num 0), (kByteLength, .num 1)]])]

/-- C5 counterexample: an image with an external `uri` (hence not embedded)
is still converted by inline mode — its `uri` is overwritten with a data URI
and its `bufferView` removed, because the code tests `bufferView` and
`mimeType` but never `uri`.  The claim's converted set (embedded images) and
its untouched set (images with a `uri`) are both wrong for inline mode. -/
theorem c5_converted_set_counterexample :
    isEmbeddedImg c5CounterImg = false
    ∧ getField c5CounterImg kUri = some (.str [120])
    ∧ inlineDocCore c5CounterDoc [7]
        = some (.obj [(kImages, .arr [.obj [(kUri, .str [100, 97, 116, 97, 58,
            97, 59, 98, 97, 115, 101, 54, 52, 44, 66, 119, 61, 61]),
            (kMimeType, .str [97])]]),
            (kBufferViews, .arr [.obj [(kByteOffset, .num 0),
              (kByteLength, .num 1)]])], true)
    ∧ ([100, 97, 116, 97, 58, 97, 59, 98, 97, 115, 101, 54, 52, 44, 66, 119,
        61, 61] : Bytes) ≠ [120] :=
  ⟨rfl, rfl, rfl, by decide⟩

/-- C5 (amended): in inline mode an image is converted exactly when it has
a `bufferView` field and a truthy `mimeType` — independently of whether it
already has a `uri`; an image that is not converted is left untouched. -/
theorem c5_inline_converted_characterization (bvsJ : Json) (bin : Bytes)
    (img img2 : Json) (m : Bool)
    (h : inlineImage bvsJ bin img = some (img2, m)) :
    (m = true ↔ (getField img kBufferView).isSome = true
        ∧ jsTruthyOpt (getField img kMimeType) = true)
    ∧ (m = false → img2 = img) := by
  rw [inlineImage.eq_def] at h
  cases hbv : getField img kBufferView with
  | none =>
    rw [hbv] at h
    simp only [Option.some.injEq, Prod.mk.injEq] at h
    obtain ⟨h2, hm2⟩ := h
    subst hm2
    simp [hbv, h2.symm]
  | some bvIdx =>
    rw [hbv] at h
    cases hm : jsTruthyOpt (getField img kMimeType) with
    | false =>
      rw [hm] at h
      simp only [Bool.false_eq_true, if_false, Option.some.injEq,
        Prod.mk.injEq] at h
      obtain ⟨h2, hm2⟩ := h
      subst hm2
      simp [hbv, hm, h2.symm]
    | true =>
      rw [hm] at h
      simp only [if_true] at h
      cases hji : jsIndex bvsJ bvIdx with
      | none => rw [hji] at h; simp at h
      | some bv =>
        rw [hji] at h
        cases bv <;> simp at h
        all_goals (obtain ⟨h2, hm2⟩ := h; subst hm2; simp [hbv, hm])

/-- A convertible image: `bufferView` and `mimeType`, no `uri`. -/
def c5WitImg : Json := .obj [(kBufferView, .num 0), (kMimeType, .str [97])]

/-- Inline-mode output for `c5WitImg` against binary chunk [7]. -/
def c5WitImg2 : Json :=
  .obj [(kMimeType, .str [97]),
        (kUri, .str [100, 97, 116, 97, 58, 97, 59, 98, 97, 115, 101, 54, 52,
          44, 66, 119, 61, 61])]

/-- C5 witness: the characterization evaluated on a concrete convertible
image. -/
theorem c5_inline_converted_characterization_witness :
    ((true : Bool) = true ↔ (getField c5WitImg kBufferView).isSome = true
        ∧ jsTruthyOpt (getField c5WitImg kMimeType) = true)
    ∧ ((true : Bool) = false → c5WitImg2 = c5WitImg) :=
  c5_inline_converted_characterization
    (.arr [.obj [(kByteOffset, .num 0), (kByteLength, .num 1)]]) [7]
    c5WitImg c5WitImg2 true rfl

/-- The five material texture-slot paths checked by
`stripEmbeddedTextures`. -/
def slotPaths : List (List Bytes) :=
  [[kPbr, kBaseColorTexture], [kPbr, kMetallicRoughnessTexture],
   [kNormalTexture], [kOcclusionTexture], [kEmissiveTexture]]

/-- Read a (possibly nested) texture slot of a material. -/
def matSlot (mat : Json) (path : List Bytes) : Option Json :=
  path.foldl (fun acc k => acc.bind (fun j => getField j k)) (some mat)

theorem getField_condDel_self (c : Bool) (j : Json) (k : Bytes) :
    getField (if c then delField j k else j) k
      = if c then none else getField j k := by
  cases c <;> simp [getField_delField_self]

theorem getField_condDel_other (c : Bool) (j : Json) (k k2 : Bytes) (h : k2 ≠ k) :
    getField (if c then delField j k else j) k2 = getField j k2 := by
  cases c <;> simp [getField_delField_other _ _ _ h]

/-- Behaviour of `stripMat` on each of the five slots: a slot whose texture
index is embedded is deleted (reads back as `undefined`), every other slot
is untouched. -/
theorem stripMat_slot_spec (embTex : List Nat) (mat : Json) :
    ∀ path ∈ slotPaths,
      matSlot (stripMat embTex mat) path
        = if slotRefsEmbedded embTex (matSlot mat path) = true then none
          else matSlot mat path := by
  intro path hp
  simp only [slotPaths, List.mem_cons, List.not_mem_nil, or_false] at hp
  cases hpbr : getField mat kPbr with
  | none =>
    simp only [stripMat, hpbr]
    rcases hp with rfl | rfl | rfl | rfl | rfl
    · simp only [matSlot, List.foldl_cons, List.foldl_nil, Option.some_bind]
      rw [getField_condDel_other _ _ kEmissiveTexture kPbr (by decide),
        getField_condDel_other _ _ kOcclusionTexture kPbr (by decide),
        getField_condDel_other _ _ kNormalTexture kPbr (by decide), hpbr]
      simp [slotRefsEmbedded]
    · simp only [matSlot, List.foldl_cons, List.foldl_nil, Option.some_bind]
      rw [getField_condDel_other _ _ kEmissiveTexture kPbr (by decide),
        getField_condDel_other _ _ kOcclusionTexture kPbr (by decide),
        getField_condDel_other _ _ kNormalTexture kPbr (by decide), hpbr]
      simp [slotRefsEmbedded]
    · simp only [matSlot, List.foldl_cons, List.foldl_nil, Option.some_bind]
      rw [getField_condDel_other _ _ kEmissiveTexture kNormalTexture (by decide),
        getField_condDel_other _ _ kOcclusionTexture kNormalTexture (by decide),
        getField_condDel_self]
    · simp only [matSlot, List.foldl_cons, List.foldl_nil, Option.some_bind]
      rw [getField_condDel_other _ _ kEmissiveTexture kOcclusionTexture (by decide),
        getField_condDel_self,
        getField_condDel_other _ _ kNormalTexture kOcclusionTexture (by decide)]
    · simp only [matSlot, List.foldl_cons, List.foldl_nil, Option.some_bind]
      rw [getField_condDel_self,
        getField_condDel_other _ _ kOcclusionTexture kEmissiveTexture (by decide),
        getField_condDel_other _ _ kNormalTexture kEmissiveTexture (by decide)]
  | some pbr =>
    obtain ⟨mm, rfl⟩ : ∃ mm, mat = .obj mm := by
      cases mat <;> simp [getField] at hpbr
      exact ⟨_, rfl⟩
    simp only [stripMat, hpbr]
    rcases hp with rfl | rfl | rfl | rfl | rfl
    · simp only [matSlot, List.foldl_cons, List.foldl_nil, Option.some_bind]
      rw [getField_condDel_other _ _ kEmissiveTexture kPbr (by decide),
        getField_condDel_other _ _ kOcclusionTexture kPbr (by decide),
        getField_condDel_other _ _ kNormalTexture kPbr (by decide),
        getField_setField_self, hpbr]
      simp only [Option.some_bind]
      rw [getField_condDel_other _ _ kMetallicRoughnessTexture
        kBaseColorTexture (by decide), getField_condDel_self]
    · simp only [matSlot, List.foldl_cons, List.foldl_nil, Option.some_bind]
      rw [getField_condDel_other _ _ kEmissiveTexture kPbr (by decide),
        getField_condDel_other _ _ kOcclusionTexture kPbr (by decide),
        getField_condDel_other _ _ kNormalTexture kPbr (by decide),
        getField_setField_self, hpbr]
      simp only [Option.some_bind]
      rw [getField_condDel_self,
        getField_condDel_other _ _ kBaseColorTexture
          kMetallicRoughnessTexture (by decide)]
    · simp only [matSlot, List.foldl_cons, List.foldl_nil, Option.some_bind]
      rw [getField_condDel_other _ _ kEmissiveTexture kNormalTexture (by decide),
        getField_condDel_other _ _ kOcclusionTexture kNormalTexture (by decide),
        getField_condDel_self,
        getField_setField_other _ kPbr kNormalTexture _ (by decide)]
    · simp only [matSlot, List.foldl_cons, List.foldl_nil, Option.some_bind]
      rw [getField_condDel_other _ _ kEmissiveTexture kOcclusionTexture (by decide),
        getField_condDel_self,
        getField_condDel_other _ _ kNormalTexture kOcclusionTexture (by decide),
        getField_setField_other _ kPbr kOcclusionTexture _ (by decide)]
    · simp only [matSlot, List.foldl_cons, List.foldl_nil, Option.some_bind]
      rw [getField_condDel_self,
        getField_condDel_other _ _ kOcclusionTexture kEmissiveTexture (by decide),
        getField_condDel_other _ _ kNormalTexture kEmissiveTexture (by decide),
        getField_setField_other _ kPbr kEmissiveTexture _ (by decide)]

theorem getD_mapIdx (l : List Json) (f : Nat → Json → Json) (i : Nat)
    (hi : i < l.length) :
    (l.mapIdx f).getD i .null = f i (l.getD i .null) := by
  rw [List.getD_eq_getElem _ _ (by simpa using hi), List.getD_eq_getElem _ _ hi,
    List.getElem_mapIdx]

theorem getD_map (l : List Json) (f : Json → Json) (i : Nat) (hi : i < l.length) :
    (l.map f).getD i .null = f (l.getD i .null) := by
  rw [List.getD_eq_getElem _ _ (by simpa using hi), List.getD_eq_getElem _ _ hi,
    List.getElem_map]

/-- C3: after strip-mode relocation the images array keeps its length, each
embedded image is replaced by the placeholder (name: stripped_i), and in
every material each of the five texture slots that referenced a texture
sourced from an embedded image is deleted (reads back as `undefined`, not
null); afterwards no material slot references an embedded-image texture.
When nothing was stripped there were no embedded images at all and the
document is unchanged. -/
theorem c3_strip_completeness (json json2 : Json) (ch : Bool)
    (imgs texs mats : List Json)
    (himgs : getField json kImages = some (.arr imgs))
    (htexs : getField json kTextures = some (.arr texs))
    (hmats : getField json kMaterials = some (.arr mats))
    (h : stripDocCore json = some (json2, ch)) :
    (ch = false → json2 = json ∧ embeddedImgIdxs imgs = [])
    ∧ (ch = true →
      ∃ imgs2 mats2,
        getField json2 kImages = some (.arr imgs2)
        ∧ getField json2 kMaterials = some (.arr mats2)
        ∧ imgs2.length = imgs.length
        ∧ (∀ i, i < imgs.length →
            imgs2.getD i .null
              = if isEmbeddedImg (imgs.getD i .null) = true
                then strippedPlaceholder i else imgs.getD i .null)
        ∧ mats2.length = mats.length
        ∧ (∀ j, j < mats.length → ∀ path ∈ slotPaths,
            matSlot (mats2.getD j .null) path
              = (if slotRefsEmbedded (embeddedTexIdxs (embeddedImgIdxs imgs) texs)
                    (matSlot (mats.getD j .null) path) = true then none
                 else matSlot (mats.getD j .null) path)
            ∧ slotRefsEmbedded (embeddedTexIdxs (embeddedImgIdxs imgs) texs)
                (matSlot (mats2.getD j .null) path) = false)) := by
  obtain ⟨m, rfl⟩ : ∃ m, json = .obj m := by
    cases json <;> simp [getField] at himgs
    exact ⟨_, rfl⟩
  rw [stripDocCore.eq_def, himgs, htexs, hmats] at h
  simp only [] at h
  by_cases h0 : imgs.length = 0
  · rw [if_pos h0] at h
    simp only [Option.some.injEq, Prod.mk.injEq] at h
    obtain ⟨hj, hc⟩ := h
    constructor
    · intro _
      refine ⟨hj.symm, ?_⟩
      simp [embeddedImgIdxs, List.length_eq_zero.mp h0]
    · intro htr
      rw [htr] at hc
      exact absurd hc (by decide)
  · rw [if_neg h0] at h
    by_cases h1 : (embeddedImgIdxs imgs).length = 0
    · rw [if_pos h1] at h
      simp only [Option.some.injEq, Prod.mk.injEq] at h
      obtain ⟨hj, hc⟩ := h
      constructor
      · intro _
        exact ⟨hj.symm, List.length_eq_zero.mp h1⟩
      · intro htr
        rw [htr] at hc
        exact absurd hc (by decide)
    · rw [if_neg h1] at h
      simp only [Option.some.injEq, Prod.mk.injEq] at h
      obtain ⟨hj, hc⟩ := h
      constructor
      · intro hf
        rw [hf] at hc
        exact absurd hc (by decide)
      · intro _
        refine ⟨List.mapIdx (fun i img => if i ∈ embeddedImgIdxs imgs
            then strippedPlaceholder i else img) imgs,
          List.map (stripMat (embeddedTexIdxs (embeddedImgIdxs imgs) texs)) mats,
          ?_, ?_, ?_, ?_, ?_, ?_⟩
        · rw [← hj]
          exact getField_setField_self _ kImages _
        · rw [← hj]
          rw [getField_setField_other _ kImages kMaterials _ (by decide)]
          exact getField_setField_self m kMaterials _
        · simp
        · intro i hi
          rw [getD_mapIdx _ _ i hi]
          have hmem : i ∈ embeddedImgIdxs imgs
              ↔ isEmbeddedImg (imgs.getD i .null) = true := by
            simp [embeddedImgIdxs, List.mem_filter, List.mem_range, hi]
          by_cases hc2 : isEmbeddedImg (imgs.getD i .null) = true
          · rw [if_pos (hmem.mpr hc2), if_pos hc2]
          · rw [if_neg (fun hh => hc2 (hmem.mp hh)), if_neg hc2]
        · simp
        · intro j hj2 path hp
          rw [getD_map _ _ j hj2]
          refine ⟨stripMat_slot_spec _ _ path hp, ?_⟩
          rw [stripMat_slot_spec _ _ path hp]
          by_cases hc3 : slotRefsEmbedded (embeddedTexIdxs (embeddedImgIdxs imgs)
              texs) (matSlot (mats.getD j .null) path) = true
          · rw [if_pos hc3]
            rfl
          · rw [if_neg hc3]
            simpa using hc3

/-- A document with one embedded image, one texture sourcing it, and one
material whose normalTexture slot references that texture. -/
def c3WitDoc : Json :=
  .obj [(kImages, .arr [.obj [(kBufferView, .num 0)]]),
        (kTextures, .arr [.obj [(kSource, .num 0)]]),
        (kMaterials, .arr [.obj [(kNormalTexture, .obj [(kIndex, .num 0)])]])]

/-- `stripDocCore`'s output on `c3WitDoc`: image replaced by the
`stripped_0` placeholder, the offending material slot deleted. -/
def c3WitOut : Json :=
  .obj [(kImages, .arr [.obj [(kName,
          .str [115, 116, 114, 105, 112, 112, 101, 100, 95, 48])]]),
        (kTextures, .arr [.obj [(kSource, .num 0)]]),
        (kMaterials, .arr [.obj []])]

/-- C3 witness: the strip-completeness statement evaluated on `c3WitDoc`. -/
theorem c3_strip_completeness_witness :
    ((true : Bool) = false → c3WitOut = c3WitDoc
        ∧ embeddedImgIdxs [Json.obj [(kBufferView, .num 0)]] = [])
    ∧ ((true : Bool) = true →
      ∃ imgs2 mats2,
        getField c3WitOut kImages = some (.arr imgs2)
        ∧ getField c3WitOut kMaterials = some (.arr mats2)
        ∧ imgs2.length = [Json.obj [(kBufferView, .num 0)]].length
        ∧ (∀ i, i < [Json.obj [(kBufferView, .num 0)]].length →
            imgs2.getD i .null
              = if isEmbeddedImg ([Json.obj [(kBufferView,
                    .num 0)]].getD i .null) = true
                then strippedPlaceholder i
                else [Json.obj [(kBufferView, .num 0)]].getD i .null)
        ∧ mats2.length
            = [Json.obj [(kNormalTexture, .obj [(kIndex, .num 0)])]].length
        ∧ (∀ j, j < [Json.obj [(kNormalTexture,
              .obj [(kIndex, .num 0)])]].length →
            ∀ path ∈ slotPaths,
            matSlot (mats2.getD j .null) path
              = (if slotRefsEmbedded (embeddedTexIdxs (embeddedImgIdxs
                    [Json.obj [(kBufferView, .num 0)]])
                    [Json.obj [(kSource, .num 0)]])
                    (matSlot ([Json.obj [(kNormalTexture,
                      .obj [(kIndex, .num 0)])]].getD j .null) path) = true
                  then none
                  else matSlot ([Json.obj [(kNormalTexture,
                    .obj [(kIndex, .num 0)])]].getD j .null) path)
            ∧ slotRefsEmbedded (embeddedTexIdxs (embeddedImgIdxs
                [Json.obj [(kBufferView, .num 0)]])
                [Json.obj [(kSource, .num 0)]])
                (matSlot (mats2.getD j .null) path) = false)) :=
  c3_strip_completeness c3WitDoc c3WitOut true
    [.obj [(kBufferView, .num 0)]] [.obj [(kSource, .num 0)]]
    [.obj [(kNormalTexture, .obj [(kIndex, .num 0)])]]
    rfl rfl rfl rfl

/-- Strip-mode relocation never touches the document's `bufferViews`: the
rewrites only go through the `materials` and `images` keys. -/
theorem stripDocCore_bufferViews (json json2 : Json) (ch : Bool)
    (h : stripDocCore json = some (json2, ch)) :
    getField json2 kBufferViews = getField json kBufferViews := by
  rw [stripDocCore.eq_def] at h
  simp only [] at h
  repeat' split at h
  all_goals first
    | exact Option.noConfusion h
    | (simp only [Option.some.injEq, Prod.mk.injEq] at h
       rw [← h.1]
       done)
    | (simp only [Option.some.injEq, Prod.mk.injEq] at h
       rw [← h.1, getField_setField_other _ kImages kBufferViews _ (by decide)]
       rename_i j2 heqM
       split at heqM <;>
         first
         | exact Option.noConfusion heqM
         | (simp only [Option.some.injEq] at heqM
            rw [← heqM]
            try rw [getField_setField_other _ kMaterials kBufferViews _
              (by decide)])
         | (split at heqM <;>
             first
             | exact Option.noConfusion heqM
             | (simp only [Option.some.injEq] at heqM
                rw [← heqM])))

/-- The JSON chunk `{"images":[{"bufferView":0}]}`. -/
def c10Json : Bytes :=
  [123, 34, 105, 109, 97, 103, 101, 115, 34, 58, 91, 123, 34, 98, 117, 102,
   102, 101, 114, 86, 105, 101, 119, 34, 58, 48, 125, 93, 125]

/-- A strippable container whose BIN chunk data is the single byte 85. -/
def c10CounterBuf : Bytes :=
  u32le glbMagic ++ u32le 2 ++ u32le 58 ++ u32le 29 ++ u32le jsonTag
    ++ c10Json ++ u32le 1 ++ u32le binTag ++ [85]

/-- The document parsed from `c10CounterBuf`. -/
def c10InDoc : Json :=
  .obj [(kImages, .arr [.obj [(kBufferView, .num 0)]])]

/-- The stripped document: the embedded image became `stripped_0`. -/
def c10OutDoc : Json :=
  .obj [(kImages, .arr [.obj [(kName,
      .str [115, 116, 114, 105, 112, 112, 101, 100, 95, 48])]])]

/-- C10 counterexample: stripping a container whose BIN chunk data length
is 1 re-serializes the BIN chunk zero-padded to 4 bytes, so the output's
BIN chunk data bytes [85, 0, 0, 0] are not identical to the input's [85]. -/
theorem c10_bin_preservation_counterexample :
    parseGLB c10CounterBuf = some (c10InDoc, some [85])
    ∧ stripGLB c10CounterBuf = some (serializeGLB c10OutDoc (some [85]))
    ∧ parseGLB (serializeGLB c10OutDoc (some [85]))
        = some (c10OutDoc, some [85, 0, 0, 0])
    ∧ ([85, 0, 0, 0] : Bytes) ≠ [85] :=
  ⟨rfl, rfl, rfl, by decide⟩

/-- C10 (amended): when strip-mode relocation rewrites a container with a
BIN chunk, the output is the stripped document serialized with the same
binary payload: the payload is zero-padded to a multiple of four (identical
bytes exactly when the input BIN chunk data was already 4-aligned), and the
document's `bufferViews` array is unchanged, so stripped image payloads
remain in the binary chunk, merely unreferenced. -/
theorem c10_strip_bin_frame (b : Bytes) (doc json2 : Json)
    (jbytes bin : Bytes) (jlen blen : Nat)
    (h0 : readU32 b 0 = some glbMagic) (h4 : readU32 b 4 = some 2)
    (h12 : readU32 b 12 = some jlen) (h16 : readU32 b 16 = some jsonTag)
    (hjb : getBytes b 20 jlen = some jbytes)
    (hjp : jsonParse jbytes = some doc)
    (hoff : 20 + jlen < b.length)
    (hbl : readU32 b (20 + jlen) = some blen)
    (hbt : readU32 b (20 + jlen + 4) = some binTag)
    (hgb : getBytes b (20 + jlen + 8) blen = some bin)
    (hs : stripDocCore doc = some (json2, true))
    (hj : (Json.stringify json2).length + 3 < 4294967296)
    (hb : bin.length + 3 < 4294967296) :
    stripGLB b = some (serializeGLB json2 (some bin))
    ∧ parseGLB (serializeGLB json2 (some bin)) = some (json2, some (padBin bin))
    ∧ (bin.length % 4 = 0 → padBin bin = bin)
    ∧ getField json2 kBufferViews = getField doc kBufferViews := by
  refine ⟨?_, ?_, ?_, stripDocCore_bufferViews doc json2 true hs⟩
  · simp [stripGLB, h0, h4, h12, h16, hjb, hjp, hoff, hbl, hbt, hgb, hs]
  · have := parseGLB_serializeGLB json2 (some bin) hj
      (fun bb hbb => by cases hbb; exact hb)
    simpa using this
  · intro hal
    have hp4 : pad4 bin.length = 0 := by
      simp only [pad4]
      omega
    simp [padBin, hp4]

/-- C10 witness: the amended statement evaluated on the concrete
strippable container. -/
theorem c10_strip_bin_frame_witness :
    stripGLB c10CounterBuf = some (serializeGLB c10OutDoc (some [85]))
    ∧ parseGLB (serializeGLB c10OutDoc (some [85]))
        = some (c10OutDoc, some (padBin [85]))
    ∧ (([85] : Bytes).length % 4 = 0 → padBin [85] = [85])
    ∧ getField c10OutDoc kBufferViews = getField c10InDoc kBufferViews :=
  c10_strip_bin_frame c10CounterBuf c10InDoc c10OutDoc c10Json [85] 29 1
    rfl rfl rfl rfl rfl rfl (by decide) rfl rfl rfl rfl (by decide) (by decide)

/-! ### Facts about the densify loop -/

/-- An accessor the densify loop will not touch: no `sparse` field, or a
falsy one. -/
def accInert (acc : Json) : Prop :=
  match getField acc kSparse with
  | none => True
  | some sp => jsTruthy sp = false

/-- The densify loop leaves an inert accessor (and its state) unchanged. -/
theorem processAccessor_of_inert (bvsOpt : Option Json) (bin : Bytes)
    (acc : Json) (h : accInert acc) :
    processAccessor bvsOpt bin acc = some (acc, bvsOpt, bin) := by
  rw [processAccessor.eq_def]
  unfold accInert at h
  cases hsp : getField acc kSparse with
  | none => simp only []
  | some sp =>
    rw [hsp] at h
    simp only [h, Bool.false_eq_true, not_false_eq_true, if_true]

/-- Every accessor the densify loop outputs is inert: either it was already
inert, or its `sparse` field has been deleted. -/
theorem processAccessor_inert (bvsOpt : Option Json) (bin : Bytes)
    (acc acc2 : Json) (bvs2 : Option Json) (bin2 : Bytes)
    (h : processAccessor bvsOpt bin acc = some (acc2, bvs2, bin2)) :
    accInert acc2 := by
  rw [processAccessor.eq_def] at h
  split at h
  · rename_i hsp
    simp only [Option.some.injEq, Prod.mk.injEq] at h
    rw [accInert, ← h.1, hsp]
    trivial
  · rename_i sp hsp
    split at h
    · rename_i hts
      simp only [Option.some.injEq, Prod.mk.injEq] at h
      rw [accInert, ← h.1, hsp]
      simpa using hts
    · simp only [Option.map_eq_some'] at h
      obtain ⟨p, hp, h⟩ := h
      simp only [Prod.mk.injEq] at h
      rw [accInert, ← h.1, getField_delField_self]
      trivial

/-- Members of the densify loop's output list are inert. -/
theorem densifyAccessors_inert (accs : List Json) :
    ∀ bvs bin accs2 bvs2 bin2,
      densifyAccessors accs bvs bin = some (accs2, bvs2, bin2) →
      ∀ a ∈ accs2, accInert a := by
  induction accs with
  | nil =>
    intro bvs bin accs2 bvs2 bin2 h
    simp only [densifyAccessors, Option.some.injEq, Prod.mk.injEq] at h
    intro a ha
    rw [← h.1] at ha
    exact absurd ha (by simp)
  | cons acc rest ih =>
    intro bvs bin accs2 bvs2 bin2 h
    rw [densifyAccessors] at h
    cases hP : processAccessor bvs bin acc with
    | none => rw [hP] at h; simp at h
    | some t =>
      obtain ⟨a2, bvsB, binB⟩ := t
      rw [hP] at h
      simp only [Option.bind_eq_bind, Option.some_bind] at h
      cases hR : densifyAccessors rest bvsB binB with
      | none => rw [hR] at h; simp at h
      | some t2 =>
        obtain ⟨r2, bvsC, binC⟩ := t2
        rw [hR] at h
        simp only [Option.bind_some, Option.pure_def, Option.some.injEq,
          Prod.mk.injEq, Option.bind_eq_bind, Option.some_bind] at h
        intro a ha
        rw [← h.1] at ha
        rcases List.mem_cons.mp ha with rfl | ha2
        · exact processAccessor_inert _ _ _ _ _ _ hP
        · exact ih _ _ _ _ _ hR a ha2

/-- The densify loop is the identity on a list of inert accessors. -/
theorem densifyAccessors_id (accs : List Json)
    (h : ∀ a ∈ accs, accInert a) :
    ∀ bvs bin, densifyAccessors accs bvs bin = some (accs, bvs, bin) := by
  induction accs with
  | nil => intro bvs bin; rfl
  | cons acc rest ih =>
    intro bvs bin
    rw [densifyAccessors, processAccessor_of_inert bvs bin acc (h acc (by simp))]
    simp only [Option.bind_eq_bind, Option.some_bind]
    rw [ih (fun a ha => h a (by simp [ha])) bvs bin]
    rfl

/-- Is a document value an array? -/
def isArr : Json → Bool
  | .arr _ => true
  | _ => false

/-- Is a document value an object or null (the two `buffers[0]` shapes the
densify script treats specially)? -/
def isObjOrNull : Json → Bool
  | .obj _ => true
  | .null => true
  | _ => false

/-- A document/chunk pair on which one densify pass changes nothing: inert
accessors and a `buffers[0].byteLength` already equal to the chunk size. -/
theorem densifyDocCore_fixpoint (json2 : Json) (bin2 : Bytes) (accsJ2 : Json)
    (b0 : Json) (brest : List Json)
    (hA : getField json2 kAccessors = some accsJ2)
    (hAc : (∃ accs2, accsJ2 = .arr accs2 ∧ ∀ a ∈ accs2, accInert a)
        ∨ isArr accsJ2 = false)
    (hB : getField json2 kBuffers = some (.arr (b0 :: brest)))
    (hb0 : (∃ m0, b0 = .obj m0 ∧ lookupKey m0 kByteLength = some (.num bin2.length))
        ∨ isObjOrNull b0 = false) :
    densifyDocCore json2 bin2 = some (json2, bin2) := by
  obtain ⟨mm, hmm⟩ : ∃ mm, json2 = .obj mm := by
    cases json2 <;> simp [getField] at hA
    exact ⟨_, rfl⟩
  have hstep2 :
      (match getField json2 kBuffers with
        | some (.arr (b0 :: brest)) =>
            match b0 with
            | .obj m0 =>
                pure (setField json2 kBuffers
                  (.arr (Json.obj (setKey m0 kByteLength (.num bin2.length))
                    :: brest)), bin2)
            | .null => none
            | _ => pure (json2, bin2)
        | _ => none) = some (json2, bin2) := by
    rw [hB]
    rcases hb0 with ⟨m0, rfl, hL⟩ | hnn
    · simp only [Option.pure_def, Option.some.injEq, Prod.mk.injEq]
      rw [setKey_lookup_self _ _ _ hL]
      refine ⟨?_, trivial⟩
      exact setField_getField_self _ _ _ hB
    · cases b0 <;> simp [isObjOrNull] at hnn <;> rfl
  rcases hAc with ⟨accs2, rfl, hI⟩ | hna
  · rw [densifyDocCore.eq_def, hA]
    simp only [Option.bind_eq_bind, Option.some_bind]
    rw [densifyAccessors_id accs2 hI (getField json2 kBufferViews) bin2]
    simp only [Option.bind_eq_bind, Option.some_bind]
    rw [setField_getField_self _ _ _ hA]
    cases hBV : getField json2 kBufferViews with
    | none =>
      simp only [Option.isSome_none, Bool.false_eq_true, if_false]
      exact hstep2
    | some bv2 =>
      simp only [Option.isSome_some, if_true]
      rw [setField_getField_self _ _ _ hBV]
      exact hstep2
  · rw [densifyDocCore.eq_def, hA]
    simp only [Option.bind_eq_bind, Option.some_bind]
    cases accsJ2 <;> simp [isArr] at hna <;>
      (simp only [Option.some_bind]
       exact hstep2)

/-- C8: the sparse-to-dense expansion is idempotent — after one pass no
accessor carries a (truthy) `sparse` field and `buffers[0].byteLength`
already equals the chunk size, so a second pass reproduces its input. -/
theorem c8_densify_idempotent (json json2 : Json) (bin bin2 : Bytes)
    (h : densifyDocCore json bin = some (json2, bin2)) :
    densifyDocCore json2 bin2 = some (json2, bin2) := by
  rw [densifyDocCore.eq_def] at h
  cases hA : getField json kAccessors with
  | none => rw [hA] at h; simp at h
  | some accsJ =>
    obtain ⟨mj, rfl⟩ : ∃ mj, json = .obj mj := by
      cases json <;> simp [getField] at hA
      exact ⟨_, rfl⟩
    rw [hA] at h
    simp only [Option.bind_eq_bind, Option.some_bind] at h
    have bufStep : ∀ (J3 accsJ3 : Json) (bin2' : Bytes),
        getField J3 kAccessors = some accsJ3 →
        ((∃ accs2, accsJ3 = .arr accs2 ∧ ∀ a ∈ accs2, accInert a)
          ∨ isArr accsJ3 = false) →
        (match getField J3 kBuffers with
          | some (.arr (b0 :: brest)) =>
              match b0 with
              | .obj m0 => pure (setField J3 kBuffers (.arr (Json.obj
                  (setKey m0 kByteLength (.num bin2'.length)) :: brest)), bin2')
              | .null => none
              | _ => pure (J3, bin2')
          | _ => none) = some (json2, bin2) →
        densifyDocCore json2 bin2 = some (json2, bin2) := by
      intro J3 accsJ3 bin2' hacc hAc3 hm
      cases hBu : getField J3 kBuffers with
      | none => rw [hBu] at hm; simp at hm
      | some bv =>
        obtain ⟨mJ, hmJ⟩ : ∃ mJ, J3 = .obj mJ := by
          cases J3 <;> simp [getField] at hBu
          exact ⟨_, rfl⟩
        rw [hBu] at hm
        cases bv with
        | arr bl =>
          cases bl with
          | nil => simp at hm
          | cons b0 brest =>
            cases b0 with
            | null => simp at hm
            | obj m0 =>
              simp only [Option.pure_def, Option.some.injEq,
                Prod.mk.injEq] at hm
              obtain ⟨hj, hb⟩ := hm
              refine densifyDocCore_fixpoint json2 bin2 accsJ3
                (Json.obj (setKey m0 kByteLength (.num bin2'.length))) brest
                ?_ hAc3 ?_ ?_
              · rw [← hj,
                  getField_setField_other _ kBuffers kAccessors _ (by decide)]
                exact hacc
              · rw [← hj, hmJ]
                exact getField_setField_self _ _ _
              · left
                refine ⟨setKey m0 kByteLength (.num bin2'.length), rfl, ?_⟩
                rw [← hb]
                exact lookupKey_setKey_self _ _ _
            | bool bb =>
              simp only [Option.pure_def, Option.some.injEq,
                Prod.mk.injEq] at hm
              obtain ⟨hj, hb⟩ := hm
              exact densifyDocCore_fixpoint json2 bin2 accsJ3 (.bool bb) brest
                (hj ▸ hacc) hAc3 (hj ▸ hBu) (Or.inr rfl)
            | num nn =>
              simp only [Option.pure_def, Option.some.injEq,
                Prod.mk.injEq] at hm
              obtain ⟨hj, hb⟩ := hm
              exact densifyDocCore_fixpoint json2 bin2 accsJ3 (.num nn) brest
                (hj ▸ hacc) hAc3 (hj ▸ hBu) (Or.inr rfl)
            | str ss =>
              simp only [Option.pure_def, Option.some.injEq,
                Prod.mk.injEq] at hm
              obtain ⟨hj, hb⟩ := hm
              exact densifyDocCore_fixpoint json2 bin2 accsJ3 (.str ss) brest
                (hj ▸ hacc) hAc3 (hj ▸ hBu) (Or.inr rfl)
            | arr aa =>
              simp only [Option.pure_def, Option.some.injEq,
                Prod.mk.injEq] at hm
              obtain ⟨hj, hb⟩ := hm
              exact densifyDocCore_fixpoint json2 bin2 accsJ3 (.arr aa) brest
                (hj ▸ hacc) hAc3 (hj ▸ hBu) (Or.inr rfl)
        | null => simp at hm
        | bool bb => simp at hm
        | num nn => simp at hm
        | str ss => simp at hm
        | obj mo => simp at hm
    cases accsJ with
    | arr accs =>
      simp only [] at h
      cases hD : densifyAccessors accs (getField (Json.obj mj) kBufferViews) bin with
      | none => rw [hD] at h; simp at h
      | some t =>
        obtain ⟨accs2, bvs2, bin2'⟩ := t
        rw [hD] at h
        simp only [Option.bind_eq_bind, Option.some_bind] at h
        have hIn : ∀ a ∈ accs2, accInert a :=
          densifyAccessors_inert accs _ bin accs2 bvs2 bin2' hD
        cases bvs2 with
        | none =>
          simp only [] at h
          refine bufStep (setField (Json.obj mj) kAccessors (.arr accs2))
            (.arr accs2) bin2' ?_ (Or.inl ⟨accs2, rfl, hIn⟩) h
          exact getField_setField_self _ _ _
        | some bv2 =>
          cases hBV : getField (Json.obj mj) kBufferViews with
          | none =>
            rw [hBV] at h
            simp only [Option.isSome_none, Bool.false_eq_true, if_false] at h
            refine bufStep (setField (Json.obj mj) kAccessors (.arr accs2))
              (.arr accs2) bin2' ?_ (Or.inl ⟨accs2, rfl, hIn⟩) h
            exact getField_setField_self _ _ _
          | some bvv =>
            rw [hBV] at h
            simp only [Option.isSome_some, if_true] at h
            refine bufStep (setField (setField (Json.obj mj) kAccessors
              (.arr accs2)) kBufferViews bv2) (.arr accs2) bin2' ?_
              (Or.inl ⟨accs2, rfl, hIn⟩) h
            rw [getField_setField_other _ kBufferViews kAccessors _ (by decide)]
            exact getField_setField_self _ _ _
    | null =>
      simp only [Option.some_bind] at h
      exact bufStep (Json.obj mj) .null bin hA (Or.inr rfl) h
    | bool bb =>
      simp only [Option.some_bind] at h
      exact bufStep (Json.obj mj) (.bool bb) bin hA (Or.inr rfl) h
    | num nn =>
      simp only [Option.some_bind] at h
      exact bufStep (Json.obj mj) (.num nn) bin hA (Or.inr rfl) h
    | str ss =>
      simp only [Option.some_bind] at h
      exact bufStep (Json.obj mj) (.str ss) bin hA (Or.inr rfl) h
    | obj mo =>
      simp only [Option.some_bind] at h
      exact bufStep (Json.obj mj) (.obj mo) bin hA (Or.inr rfl) h

/-- C8 witness: a document with an empty accessor array and a zero-length
buffer entry is a densify fixed point after the first pass. -/
theorem c8_densify_idempotent_witness :
    densifyDocCore (.obj [(kAccessors, .arr []),
        (kBuffers, .arr [.obj [(kByteLength, .num 0)]])]) []
      = some ((.obj [(kAccessors, .arr []),
          (kBuffers, .arr [.obj [(kByteLength, .num 0)]])]), []) :=
  c8_densify_idempotent
    (.obj [(kAccessors, .arr []), (kBuffers, .arr [.obj [(kByteLength, .num 0)]])])
    (.obj [(kAccessors, .arr []), (kBuffers, .arr [.obj [(kByteLength, .num 0)]])])
    [] [] rfl

theorem getBytes_drop_take (b : Bytes) (off len : Nat) (w : Bytes)
    (h : getBytes b off len = some w) : (b.drop off).take len = w := by
  unfold getBytes at h
  split at h
  · exact Option.some.inj h
  · exact Option.noConfusion h

theorem padBin_idem (bb : Bytes) : padBin (padBin bb) = padBin bb := by
  have hmod : (padBin bb).length % 4 = 0 := by
    simp only [padBin, List.length_append, List.length_replicate]
    exact pad4_mod _
  have hp4 : pad4 (padBin bb).length = 0 := by
    simp only [pad4]
    omega
  conv_lhs => rw [padBin, hp4]
  simp

theorem serializeGLB_padBin (doc : Json) (bb : Bytes) :
    serializeGLB doc (some (padBin bb)) = serializeGLB doc (some bb) := by
  rw [serializeGLB_some, serializeGLB_some, padBin_idem]

/-- The densify script's chunk walk over a serializer output finds the
(space-padded) JSON document and the (zero-padded) BIN chunk data, with any
fuel two above the chunk count. -/
theorem chunkWalk_serialize_fuel (doc : Json) (bb : Bytes) (f : Nat)
    (hj : (Json.stringify doc).length + 3 < 4294967296)
    (hbb : bb.length + 3 < 4294967296) :
    chunkWalk (f + 2) (serializeGLB doc (some bb)) 12 none none
      = some (some doc, some (padBin bb)) := by
  obtain ⟨h0, h4, h12, h16, h20, hbl, hbt, hbd, hL⟩ := serialize_reads_bin doc bb hj hbb
  have hcd : ((serializeGLB doc (some bb)).drop 20).take (jsonData doc).length
      = jsonData doc := getBytes_drop_take _ _ _ _ h20
  have hcd2 : ((serializeGLB doc (some bb)).drop (20 + (jsonData doc).length + 8)).take
      (padBin bb).length = padBin bb := getBytes_drop_take _ _ _ _ hbd
  have hjp : jsonParse (jsonData doc) = some doc := jsonParse_stringify_pad _ _
  rw [chunkWalk.eq_def]
  simp only []
  rw [if_pos (by omega)]
  simp only [h12, h16, Option.bind_eq_bind, Option.some_bind, if_true,
    show 12 + 8 = 20 from rfl]
  rw [hcd, hjp]
  simp only [Option.some_bind]
  rw [chunkWalk.eq_def]
  simp only []
  rw [if_pos (by omega)]
  simp only [hbl, hbt, Option.bind_eq_bind, Option.some_bind]
  rw [if_neg (show ¬ binTag = jsonTag by decide)]
  simp only [if_true]
  try rw [if_pos rfl]
  rw [hcd2]
  rw [chunkWalk.eq_def]
  simp only []
  rw [if_neg (by omega)]

/-- The chunk walk as `densifyGLB` invokes it (fuel = buffer length + 1). -/
theorem chunkWalk_serialize (doc : Json) (bb : Bytes)
    (hj : (Json.stringify doc).length + 3 < 4294967296)
    (hbb : bb.length + 3 < 4294967296) :
    chunkWalk ((serializeGLB doc (some bb)).length + 1) (serializeGLB doc (some bb))
      12 none none = some (some doc, some (padBin bb)) := by
  obtain ⟨_, _, _, _, _, _, _, _, hL⟩ := serialize_reads_bin doc bb hj hbb
  rw [show (serializeGLB doc (some bb)).length + 1
    = ((serializeGLB doc (some bb)).length - 1) + 2 by omega]
  exact chunkWalk_serialize_fuel doc bb _ hj hbb

/-- A document with zero sparse accessors and zero embedded images whose
`buffers[0].byteLength` (0) does not match its BIN chunk size (4). -/
def c9Doc : Json :=
  .obj [(kAccessors, .arr []), (kBuffers, .arr [.obj [(kByteLength, .num 0)]])]

/-- The densify output for `c9Doc`: `buffers[0].byteLength` rewritten to 4. -/
def c9DocOut : Json :=
  .obj [(kAccessors, .arr []), (kBuffers, .arr [.obj [(kByteLength, .num 4)]])]

/-- C9 counterexample: a serialized container with zero sparse accessors
and zero embedded images is NOT passed through byte-identically by the
densify script — it unconditionally rewrites `buffers[0].byteLength` to the
BIN chunk size, changing the JSON chunk bytes. -/
theorem c9_passthrough_counterexample :
    (∀ a ∈ docArr c9Doc kAccessors, getField a kSparse = none)
    ∧ getField c9Doc kImages = none
    ∧ densifyGLB (serializeGLB c9Doc (some [1, 2, 3, 4]))
        = some (serializeGLB c9DocOut (some [1, 2, 3, 4]))
    ∧ serializeGLB c9DocOut (some [1, 2, 3, 4])
        ≠ serializeGLB c9Doc (some [1, 2, 3, 4]) :=
  ⟨by
    intro a ha
    rw [show docArr c9Doc kAccessors = [] from rfl] at ha
    exact absurd ha (List.not_mem_nil a),
   rfl, rfl, by decide⟩

/-- Images without a `bufferView` yield an empty embedded-image set. -/
theorem embeddedImgIdxs_nil (imgs : List Json)
    (h : ∀ i ∈ imgs, getField i kBufferView = none) :
    embeddedImgIdxs imgs = [] := by
  rw [embeddedImgIdxs, List.filter_eq_nil_iff]
  intro i hi
  have hlt : i < imgs.length := List.mem_range.mp hi
  have hmem : imgs.getD i .null ∈ imgs := by
    rw [List.getD_eq_getElem _ _ hlt]
    exact List.getElem_mem _
  simp only [isEmbeddedImg, h _ hmem, Option.isSome_none, Bool.false_and,
    Bool.false_eq_true, not_false_eq_true]

/-- Strip-mode relocation changes nothing when no image in the images
array carries a `bufferView` (in particular when every image uses an
external uri). -/
theorem stripDocCore_noembedded (json : Json) (imgs : List Json)
    (himgs : getField json kImages = some (.arr imgs))
    (h : ∀ i ∈ imgs, getField i kBufferView = none) :
    stripDocCore json = some (json, false) := by
  rw [stripDocCore.eq_def, himgs]
  simp only []
  by_cases h0 : imgs.length = 0
  · rw [if_pos h0]
  · rw [if_neg h0, embeddedImgIdxs_nil imgs h,
      if_pos (show ([] : List Nat).length = 0 by rfl)]

/-- The inline loop leaves every image without a `bufferView` untouched
and reports no modification. -/
theorem inlineImages_nobv (bvsJ : Json) (bin : Bytes) (imgs : List Json)
    (h : ∀ i ∈ imgs, getField i kBufferView = none) :
    inlineImages bvsJ bin imgs = some (imgs, false) := by
  induction imgs with
  | nil => rfl
  | cons img rest ih =>
    rw [inlineImages, inlineImage.eq_def, h img (by simp)]
    simp only [Option.bind_eq_bind, Option.some_bind]
    rw [ih (fun i hi => h i (by simp [hi]))]
    simp

/-- Inline-mode relocation reports nothing modified when no image in the
images array carries a `bufferView`. -/
theorem inlineDocCore_noembedded (json : Json) (bin : Bytes) (imgs : List Json)
    (himgs : getField json kImages = some (.arr imgs))
    (h : ∀ i ∈ imgs, getField i kBufferView = none) :
    ∃ j2, inlineDocCore json bin = some (j2, false) := by
  rw [inlineDocCore.eq_def, himgs]
  cases hbvs : getField json kBufferViews with
  | none => exact ⟨json, rfl⟩
  | some bvsJ =>
    simp only []
    by_cases ht : jsTruthy bvsJ = true
    · refine ⟨setField json kImages (.arr imgs), ?_⟩
      rw [if_pos (by simp [ht, show jsTruthy (Json.arr imgs) = true from rfl])]
      rw [inlineImages_nobv bvsJ bin imgs h]
      rfl
    · refine ⟨json, ?_⟩
      rw [if_neg (by simp [ht, show jsTruthy (Json.arr imgs) = true from rfl])]

/-- C9 (amended): a serialized container whose accessors are all
non-sparse, whose images (if any) all lack a `bufferView` — i.e. zero
embedded images, with every image externally linked — and whose
`buffers[0].byteLength` already equals the (padded) BIN chunk size, passes
through all three transforms byte-identically. -/
theorem c9_pipeline_noop (json : Json) (bin : Bytes) (accs : List Json)
    (m0 : List (Bytes × Json)) (brest : List Json)
    (hj : (Json.stringify json).length + 3 < 4294967296)
    (hb : bin.length + 3 < 4294967296)
    (haccs : getField json kAccessors = some (.arr accs))
    (hinert : ∀ a ∈ accs, accInert a)
    (hbuf : getField json kBuffers = some (.arr (.obj m0 :: brest)))
    (hlen0 : lookupKey m0 kByteLength = some (.num (padBin bin).length))
    (himgs : getField json kImages = none
      ∨ ∃ imgs, getField json kImages = some (.arr imgs)
          ∧ ∀ i ∈ imgs, getField i kBufferView = none) :
    densifyGLB (serializeGLB json (some bin)) = some (serializeGLB json (some bin))
    ∧ stripGLB (serializeGLB json (some bin)) = some (serializeGLB json (some bin))
    ∧ preprocessGLB (serializeGLB json (some bin))
        = some (serializeGLB json (some bin)) := by
  obtain ⟨h0, h4, h12, h16, h20, hbl, hbt, hbd, hL⟩ :=
    serialize_reads_bin json bin hj hb
  have hjp : jsonParse (jsonData json) = some json := jsonParse_stringify_pad _ _
  have hofflt : 20 + (jsonData json).length < (serializeGLB json (some bin)).length := by
    omega
  have hfix : densifyDocCore json (padBin bin) = some (json, padBin bin) :=
    densifyDocCore_fixpoint json (padBin bin) (.arr accs) (.obj m0) brest haccs
      (Or.inl ⟨accs, rfl, hinert⟩) hbuf (Or.inl ⟨m0, rfl, hlen0⟩)
  have hstrip : stripDocCore json = some (json, false) := by
    rcases himgs with hnone | ⟨imgs, hsome, hno⟩
    · rw [stripDocCore.eq_def, hnone]
    · exact stripDocCore_noembedded json imgs hsome hno
  have hinl : ∃ j2, inlineDocCore json (padBin bin) = some (j2, false) := by
    rcases himgs with hnone | ⟨imgs, hsome, hno⟩
    · refine ⟨json, ?_⟩
      rw [inlineDocCore.eq_def, hnone]
    · exact inlineDocCore_noembedded json (padBin bin) imgs hsome hno
  obtain ⟨j2, hinl⟩ := hinl
  refine ⟨?_, ?_, ?_⟩
  · simp [densifyGLB, chunkWalk_serialize json bin hj hb, hfix, serializeGLB_padBin]
  · simp [stripGLB, h0, h4, h12, h16, h20, hjp, hofflt, hbl, hbt, hbd, hstrip]
  · simp [preprocessGLB, h0, h4, h12, h16, h20, hjp, hofflt, hbl, hbt, hbd, hinl]

/-- A serialized fixed point: aligned BIN chunk [1,2,3,4], matching
`buffers[0].byteLength`, empty accessor array, and an images array holding
one non-embedded, externally-linked image (uri "x", no bufferView). -/
def c9WitDoc : Json :=
  .obj [(kAccessors, .arr []),
        (kBuffers, .arr [.obj [(kByteLength, .num 4)]]),
        (kBufferViews, .arr []),
        (kImages, .arr [.obj [(kUri, .str [120])]])]

/-- C9 witness: the amended statement evaluated on `c9WitDoc` with BIN
chunk [1,2,3,4]. -/
theorem c9_pipeline_noop_witness :
    densifyGLB (serializeGLB c9WitDoc (some [1, 2, 3, 4]))
      = some (serializeGLB c9WitDoc (some [1, 2, 3, 4]))
    ∧ stripGLB (serializeGLB c9WitDoc (some [1, 2, 3, 4]))
      = some (serializeGLB c9WitDoc (some [1, 2, 3, 4]))
    ∧ preprocessGLB (serializeGLB c9WitDoc (some [1, 2, 3, 4]))
      = some (serializeGLB c9WitDoc (some [1, 2, 3, 4])) :=
  c9_pipeline_noop c9WitDoc [1, 2, 3, 4] [] [(kByteLength, .num 4)] []
    (by decide) (by decide) rfl (fun a ha => absurd ha (List.not_mem_nil a))
    rfl rfl
    (Or.inr ⟨[.obj [(kUri, .str [120])]], rfl, by
      intro i hi
      rw [List.mem_singleton.mp hi]
      rfl⟩)

/-! ### Byte-level facts about the dense buffer writes -/

/-- Element `i` of a buffer of `bpe`-byte elements. -/
def elemAt (l : Bytes) (bpe i : Nat) : Bytes := (l.take ((i + 1) * bpe)).drop (i * bpe)

theorem elemAt_eq (l : Bytes) (bpe i : Nat) :
    elemAt l bpe i = (l.drop (i * bpe)).take bpe := by
  rw [elemAt, List.drop_take]
  congr 1
  ring_nf
  omega

theorem accElemSize_pos (acc : Json) : 0 < accElemSize acc := by
  rw [accElemSize]
  split
  · split
    · decide
    · split
      · decide
      · split
        · decide
        · decide
  · decide

theorem setBytes_nil (l : Bytes) (p : Nat) : setBytes l p [] = l := by
  simp [setBytes, List.take_append_drop]

theorem setBytes_length (l : Bytes) (p : Nat) (w : Bytes)
    (h : p + w.length ≤ l.length) : (setBytes l p w).length = l.length := by
  simp only [setBytes, List.length_append, List.length_take, List.length_drop]
  omega

theorem setBytes_append (l : Bytes) (p : Nat) (w1 w2 : Bytes)
    (h : p + w1.length ≤ l.length) :
    setBytes (setBytes l p w1) (p + w1.length) w2 = setBytes l p (w1 ++ w2) := by
  have hp : p ≤ l.length := by omega
  have hA : (l.take p ++ w1).length = p + w1.length := by
    simp only [List.length_append, List.length_take]
    omega
  simp only [setBytes, List.length_append]
  rw [List.take_left' hA]
  rw [show p + w1.length + w2.length = (l.take p ++ w1).length + w2.length by
    rw [hA]]
  rw [List.drop_append w2.length, List.drop_drop]
  rw [show p + w1.length + w2.length = p + (w1.length + w2.length) by omega]
  simp [List.append_assoc]

theorem elemAt_setBytes_self (l : Bytes) (bpe i : Nat) (w : Bytes)
    (hw : w.length = bpe) (h : i * bpe + bpe ≤ l.length) :
    elemAt (setBytes l (i * bpe) w) bpe i = w := by
  have htl : (l.take (i * bpe)).length = i * bpe := by
    simp only [List.length_take]
    omega
  rw [elemAt_eq]
  rw [setBytes, List.append_assoc, List.drop_left' htl, List.take_left' hw]

theorem elemAt_setBytes_ne (l : Bytes) (bpe i i2 : Nat) (w : Bytes)
    (hw : w.length = bpe) (hne : i2 ≠ i)
    (hi : i * bpe + bpe ≤ l.length) (hi2 : i2 * bpe + bpe ≤ l.length) :
    elemAt (setBytes l (i * bpe) w) bpe i2 = elemAt l bpe i2 := by
  have htl : (l.take (i * bpe)).length = i * bpe := by
    simp only [List.length_take]
    omega
  rw [elemAt_eq, elemAt_eq]
  rcases Nat.lt_or_ge i2 i with hlt | hge
  · have hb : i2 * bpe + bpe ≤ i * bpe := by
      have h1 : i2 + 1 ≤ i := hlt
      calc i2 * bpe + bpe = (i2 + 1) * bpe := by ring
        _ ≤ i * bpe := Nat.mul_le_mul_right _ h1
    rw [setBytes, List.append_assoc,
      List.drop_append_of_le_length (by omega),
      List.take_append_of_le_length (by simp only [List.length_drop, htl]; omega),
      List.drop_take, List.take_take]
    congr 1
    omega
  · have hgt : i < i2 := by omega
    have hb : i * bpe + bpe ≤ i2 * bpe := by
      have h1 : i + 1 ≤ i2 := hgt
      calc i * bpe + bpe = (i + 1) * bpe := by ring
        _ ≤ i2 * bpe := Nat.mul_le_mul_right _ h1
    have hset : (setBytes l (i * bpe) w).drop (i2 * bpe) = l.drop (i2 * bpe) := by
      have hA : (l.take (i * bpe) ++ w).length = i * bpe + bpe := by
        simp only [List.length_append, htl, hw]
      rw [setBytes]
      conv_lhs => rw [show i2 * bpe
        = (l.take (i * bpe) ++ w).length + (i2 * bpe - (i * bpe + bpe)) by
          rw [hA]; omega]
      rw [List.drop_append, List.drop_drop]
      congr 1
      rw [hw]
      omega
    rw [hset]

/-- One `writeElem` call copies the whole `bpe`-byte element `j` of the
sparse values region onto dense element `idx`. -/
theorem writeElem_eq (bin : Bytes) (valOffN bpe es j idx : Nat) (dense : Bytes)
    (hbpe : bpe = es * 4)
    (hsrc : valOffN + j * bpe + bpe ≤ bin.length)
    (hdst : idx * bpe + bpe ≤ dense.length) :
    writeElem bin (valOffN : Int) bpe es j idx dense
      = some (setBytes dense (idx * bpe)
          ((bin.drop (valOffN + j * bpe)).take bpe)) := by
  have haux : ∀ m, m ≤ es →
      (List.range m).foldlM (fun d k =>
        floatCopy bin ((valOffN : Int) + (j * bpe : Nat) + (k * 4 : Nat)) d
          (idx * bpe + k * 4)) dense
      = some (setBytes dense (idx * bpe)
          ((bin.drop (valOffN + j * bpe)).take (m * 4))) := by
    intro m
    induction m with
    | zero =>
      intro _
      simp [setBytes_nil]
    | succ n ih =>
      intro hm
      rw [List.range_succ, List.foldlM_append, ih (by omega)]
      simp only [Option.bind_eq_bind, Option.some_bind]
      have hlen1 : ((bin.drop (valOffN + j * bpe)).take (n * 4)).length = n * 4 := by
        simp only [List.length_take, List.length_drop]
        omega
      have hsrcN : ((valOffN : Int) + (j * bpe : Nat) + (n * 4 : Nat)).toNat
          = valOffN + j * bpe + n * 4 := by omega
      simp only [List.foldlM_cons, List.foldlM_nil, bind_pure]
      rw [floatCopy]
      rw [if_neg (by omega)]
      have hgb : getBytes bin ((valOffN : Int) + (j * bpe : Nat)
          + (n * 4 : Nat)).toNat 4
          = some ((bin.drop (valOffN + j * bpe + n * 4)).take 4) := by
        rw [hsrcN, getBytes, if_pos (by omega)]
      rw [hgb]
      simp only []
      have hdl : (setBytes dense (idx * bpe)
          ((bin.drop (valOffN + j * bpe)).take (n * 4))).length = dense.length := by
        rw [setBytes_length]
        rw [hlen1]
        omega
      rw [if_pos (by rw [hdl]; omega)]
      rw [show idx * bpe + n * 4
        = idx * bpe + ((bin.drop (valOffN + j * bpe)).take (n * 4)).length by
          rw [hlen1]]
      rw [setBytes_append _ _ _ _ (by rw [hlen1]; omega)]
      rw [show bin.drop (valOffN + j * bpe + n * 4)
        = (bin.drop (valOffN + j * bpe)).drop (n * 4) from (List.drop_drop _ _ _).symm]
      rw [← List.take_add]
      rw [show (n + 1) * 4 = n * 4 + 4 by ring]
  rw [writeElem, haux es (Nat.le_refl es), ← hbpe]

/-- The sparse-write loop: starting from the base dense buffer, element
`idxs[j]` receives the bytes of sparse value entry `j`, all other elements
keep their base bytes. -/
theorem sparse_fold_spec
    (bin : Bytes) (idxOff : Int) (ctype : Option Json) (valOffN : Nat)
    (es count : Nat)
    (idxs : List Nat) (scount : Nat) (hslen : idxs.length = scount)
    (hread : ∀ j, j < scount →
      readSparseIdx bin idxOff ctype j = some (idxs.getD j 0))
    (hidxlt : ∀ j, j < scount → idxs.getD j 0 < count)
    (hnodup : idxs.Nodup)
    (hvrange : valOffN + scount * (es * 4) ≤ bin.length)
    (base : Bytes) (hbase : base.length = count * (es * 4)) :
    ∀ m, m ≤ scount →
      ∃ dm, (List.range m).foldlM (fun d j => do
          let idx ← readSparseIdx bin idxOff ctype j
          writeElem bin (valOffN : Int) (es * 4) es j idx d) base = some dm
        ∧ dm.length = count * (es * 4)
        ∧ ∀ i, i < count →
            (∀ j, j < m → idxs.getD j 0 = i →
              elemAt dm (es * 4) i
                = (bin.drop (valOffN + j * (es * 4))).take (es * 4))
            ∧ ((∀ j, j < m → idxs.getD j 0 ≠ i) →
              elemAt dm (es * 4) i = elemAt base (es * 4) i) := by
  intro m
  induction m with
  | zero =>
    intro _
    exact ⟨base, by simp, hbase,
      fun i hi => ⟨fun j hj => absurd hj (by omega), fun _ => rfl⟩⟩
  | succ n ih =>
    intro hm
    obtain ⟨dm, hfold, hlen, hprops⟩ := ih (by omega)
    have hb1 : (n + 1) * (es * 4) ≤ scount * (es * 4) := Nat.mul_le_mul_right _ hm
    have hstep : (n + 1) * (es * 4) = n * (es * 4) + es * 4 := by ring
    have hbound : valOffN + n * (es * 4) + es * 4 ≤ bin.length := by omega
    have hwlen : ((bin.drop (valOffN + n * (es * 4))).take (es * 4)).length
        = es * 4 := by
      simp only [List.length_take, List.length_drop]
      omega
    have hidxn : idxs.getD n 0 < count := hidxlt n (by omega)
    have hdst : (idxs.getD n 0) * (es * 4) + es * 4 ≤ dm.length := by
      rw [hlen]
      have h1 := Nat.mul_le_mul_right (es * 4)
        (show idxs.getD n 0 + 1 ≤ count by omega)
      have h2 : (idxs.getD n 0 + 1) * (es * 4)
          = (idxs.getD n 0) * (es * 4) + es * 4 := by ring
      omega
    have hne_of : ∀ j, j < scount → j ≠ n → idxs.getD j 0 ≠ idxs.getD n 0 := by
      intro j hj hjn he
      have hjl : j < idxs.length := by omega
      have hnl : n < idxs.length := by omega
      rw [List.getD_eq_getElem _ _ hjl, List.getD_eq_getElem _ _ hnl] at he
      exact hjn ((List.Nodup.getElem_inj_iff hnodup).mp he)
    refine ⟨setBytes dm ((idxs.getD n 0) * (es * 4))
      ((bin.drop (valOffN + n * (es * 4))).take (es * 4)), ?_, ?_, ?_⟩
    · rw [List.range_succ, List.foldlM_append, hfold]
      simp only [Option.bind_eq_bind, Option.some_bind, List.foldlM_cons,
        List.foldlM_nil, bind_pure]
      rw [hread n (by omega)]
      simp only [Option.some_bind]
      rw [writeElem_eq bin valOffN (es * 4) es n (idxs.getD n 0) dm rfl
        hbound hdst]
    · rw [setBytes_length _ _ _ (by rw [hwlen]; omega), hlen]
    · intro i hi
      have hidm : i * (es * 4) + es * 4 ≤ dm.length := by
        rw [hlen]
        have h1 := Nat.mul_le_mul_right (es * 4) (show i + 1 ≤ count by omega)
        have h2 : (i + 1) * (es * 4) = i * (es * 4) + es * 4 := by ring
        omega
      constructor
      · intro j hj hji
        by_cases hjn : j = n
        · subst hjn
          rw [← hji]
          rw [elemAt_setBytes_self _ _ _ _ hwlen (hji ▸ hidm)]
        · have hne : i ≠ idxs.getD n 0 := by
            intro he
            exact hne_of j (by omega) hjn (by rw [hji, he])
          rw [elemAt_setBytes_ne _ _ _ _ _ hwlen hne hdst hidm]
          exact (hprops i hi).1 j (by omega) hji
      · intro hnone
        have hne : i ≠ idxs.getD n 0 := by
          intro he
          exact (hnone n (by omega)) he.symm
        rw [elemAt_setBytes_ne _ _ _ _ _ hwlen hne hdst hidm]
        exact (hprops i hi).2 (fun j hj => hnone j (by omega))

/-- Unfolding of `expandSparse` on a well-formed sparse accessor, down to
the sparse-write loop. -/
theorem expandSparse_eq
    (bin : Bytes) (acc sp : Json) (bvlist : List Json)
    (cnt : Int) (ind vals : Json) (im vm : List (Bytes × Json))
    (valOffN : Nat) (sn : Int) (base : Bytes)
    (hcount : getField acc kCount = some (.num cnt)) (hcnt0 : 0 ≤ cnt)
    (hbase :
      (getField acc kBufferView = none
        ∧ base = List.replicate (cnt.toNat * (accElemSize acc * 4)) 0)
      ∨ (∃ bvIdx bvm srcOffN, getField acc kBufferView = some bvIdx
          ∧ jsIndex (.arr bvlist) bvIdx = some (.obj bvm)
          ∧ numOrZero (getField (.obj bvm) kByteOffset)
              + numOrZero (getField acc kByteOffset) = ((srcOffN : Nat) : Int)
          ∧ base = (bin.drop srcOffN).take (cnt.toNat * (accElemSize acc * 4))
              ++ List.replicate (cnt.toNat * (accElemSize acc * 4)
                - ((bin.drop srcOffN).take
                    (cnt.toNat * (accElemSize acc * 4))).length) 0))
    (hind : getField sp kIndices = some ind)
    (hvals : getField sp kValues = some vals)
    (hidxbv : jsIndex (.arr bvlist) ((getField ind kBufferView).getD .null)
        = some (.obj im))
    (hvalbv : jsIndex (.arr bvlist) ((getField vals kBufferView).getD .null)
        = some (.obj vm))
    (hvoff : numOrZero (getField (.obj vm) kByteOffset)
        + numOrZero (getField vals kByteOffset) = ((valOffN : Nat) : Int))
    (hscount : getField sp kCount = some (.num sn)) :
    expandSparse (some (.arr bvlist)) bin acc sp
      = ((List.range sn.toNat).foldlM (fun d j => do
            let idx ← readSparseIdx bin
              (numOrZero (getField (.obj im) kByteOffset)
                + numOrZero (getField ind kByteOffset))
              (getField ind kComponentType) j
            writeElem bin ((valOffN : Nat) : Int) (accElemSize acc * 4)
              (accElemSize acc) j idx d) base).bind
          (fun d => some (bvlist, d)) := by
  rw [expandSparse.eq_def]
  simp only [hcount, hcnt0, if_true, hind, hvals, hidxbv, hvalbv, hscount,
    Option.bind_eq_bind, Option.some_bind]
  rcases hbase with ⟨hbv, hbeq⟩ | ⟨bvIdx, bvm, srcOffN, hbv, hji, hsoff, hbeq⟩
  · simp only [hbv, Option.some_bind]
    rw [hvoff, ← hbeq]
    rfl
  · simp only [hbv, hji, Option.bind_eq_bind, Option.some_bind]
    rw [hsoff]
    rw [if_neg (by omega)]
    simp only [Int.toNat_natCast]
    rw [hvoff, ← hbeq]
    rfl

/-- C2: densify correctness for one sparse accessor.  The loop body
produces `bin ++ dense2` with a fresh buffer view over `dense2`; element
`i` of `dense2` is sparse value entry `j` whenever the decoded sparse index
list has `i` at position `j`, and is the base buffer's element `i`
otherwise — where the base buffer is the accessor's (clamped, zero-padded)
bufferView window when it has one and all zeros when it does not. -/
theorem c2_densify_correct
    (bin : Bytes) (acc sp : Json) (bvlist : List Json)
    (cnt : Int) (ind vals : Json) (im vm : List (Bytes × Json))
    (valOffN : Nat) (sn : Int) (base : Bytes) (idxs : List Nat)
    (hsp : getField acc kSparse = some sp) (htr : jsTruthy sp = true)
    (hcount : getField acc kCount = some (.num cnt)) (hcnt0 : 0 ≤ cnt)
    (hbase :
      (getField acc kBufferView = none
        ∧ base = List.replicate (cnt.toNat * (accElemSize acc * 4)) 0)
      ∨ (∃ bvIdx bvm srcOffN, getField acc kBufferView = some bvIdx
          ∧ jsIndex (.arr bvlist) bvIdx = some (.obj bvm)
          ∧ numOrZero (getField (.obj bvm) kByteOffset)
              + numOrZero (getField acc kByteOffset) = ((srcOffN : Nat) : Int)
          ∧ base = (bin.drop srcOffN).take (cnt.toNat * (accElemSize acc * 4))
              ++ List.replicate (cnt.toNat * (accElemSize acc * 4)
                - ((bin.drop srcOffN).take
                    (cnt.toNat * (accElemSize acc * 4))).length) 0))
    (hind : getField sp kIndices = some ind)
    (hvals : getField sp kValues = some vals)
    (hidxbv : jsIndex (.arr bvlist) ((getField ind kBufferView).getD .null)
        = some (.obj im))
    (hvalbv : jsIndex (.arr bvlist) ((getField vals kBufferView).getD .null)
        = some (.obj vm))
    (hvoff : numOrZero (getField (.obj vm) kByteOffset)
        + numOrZero (getField vals kByteOffset) = ((valOffN : Nat) : Int))
    (hscount : getField sp kCount = some (.num sn))
    (hslen : idxs.length = sn.toNat)
    (hread : ∀ j, j < sn.toNat →
      readSparseIdx bin (numOrZero (getField (.obj im) kByteOffset)
        + numOrZero (getField ind kByteOffset)) (getField ind kComponentType) j
        = some (idxs.getD j 0))
    (hidxlt : ∀ j, j < sn.toNat → idxs.getD j 0 < cnt.toNat)
    (hnodup : idxs.Nodup)
    (hvrange : valOffN + sn.toNat * (accElemSize acc * 4) ≤ bin.length) :
    ∃ dense2,
      processAccessor (some (.arr bvlist)) bin acc
        = some (delField (setField (setField acc kBufferView (.num bvlist.length))
            kByteOffset (.num 0)) kSparse,
          some (.arr (bvlist ++ [.obj [(kBuffer, .num 0),
            (kByteOffset, .num bin.length), (kByteLength, .num dense2.length)]])),
          bin ++ dense2)
      ∧ dense2.length = cnt.toNat * (accElemSize acc * 4)
      ∧ ∀ i, i < cnt.toNat →
          (∀ j, j < sn.toNat → idxs.getD j 0 = i →
            elemAt dense2 (accElemSize acc * 4) i
              = (bin.drop (valOffN + j * (accElemSize acc * 4))).take
                  (accElemSize acc * 4))
          ∧ ((∀ j, j < sn.toNat → idxs.getD j 0 ≠ i) →
            elemAt dense2 (accElemSize acc * 4) i
              = elemAt base (accElemSize acc * 4) i) := by
  have hbaselen : base.length = cnt.toNat * (accElemSize acc * 4) := by
    rcases hbase with ⟨_, hbeq⟩ | ⟨_, _, _, _, _, _, hbeq⟩
    · simp [hbeq]
    · simp only [hbeq, List.length_append, List.length_replicate,
        List.length_take, List.length_drop]
      omega
  obtain ⟨dF, hfold, hlenF, hpropsF⟩ := sparse_fold_spec bin
    (numOrZero (getField (.obj im) kByteOffset)
      + numOrZero (getField ind kByteOffset))
    (getField ind kComponentType) valOffN (accElemSize acc) cnt.toNat
    idxs sn.toNat hslen hread hidxlt hnodup hvrange base hbaselen
    sn.toNat (Nat.le_refl _)
  refine ⟨dF, ?_, hlenF, hpropsF⟩
  rw [processAccessor.eq_def, hsp]
  simp only []
  rw [if_neg (by simp [htr])]
  rw [expandSparse_eq bin acc sp bvlist cnt ind vals im vm valOffN sn base
    hcount hcnt0 hbase hind hvals hidxbv hvalbv hvoff hscount]
  rw [hfold]
  rfl

/-- Sparse `indices` object: bufferView 0, byteOffset 0, u16 indices. -/
def c2Ind : Json :=
  .obj [(kBufferView, .num 0), (kByteOffset, .num 0), (kComponentType, .num 5123)]

/-- Sparse `values` object: bufferView 1, byteOffset 0. -/
def c2Vals : Json := .obj [(kBufferView, .num 1), (kByteOffset, .num 0)]

/-- A sparse block with one entry. -/
def c2Sp : Json := .obj [(kCount, .num 1), (kIndices, c2Ind), (kValues, c2Vals)]

/-- A SCALAR accessor of count 3 with the sparse block and no base
bufferView. -/
def c2Acc : Json :=
  .obj [(kCount, .num 3), (kType, .str sSCALAR), (kSparse, c2Sp)]

/-- Buffer views: indices at byte 0, values at byte 2. -/
def c2Bvl : List Json :=
  [.obj [(kByteOffset, .num 0)], .obj [(kByteOffset, .num 2)]]

/-- Binary chunk: u16 index 2, then the 4 value bytes 65 66 67 68. -/
def c2Bin : Bytes := [2, 0, 65, 66, 67, 68]

/-- C2 witness: the densify-correctness statement evaluated on a concrete
one-entry sparse accessor. -/
theorem c2_densify_correct_witness :
    ∃ dense2,
      processAccessor (some (.arr c2Bvl)) c2Bin c2Acc
        = some (delField (setField (setField c2Acc kBufferView (.num c2Bvl.length))
            kByteOffset (.num 0)) kSparse,
          some (.arr (c2Bvl ++ [.obj [(kBuffer, .num 0),
            (kByteOffset, .num c2Bin.length), (kByteLength, .num dense2.length)]])),
          c2Bin ++ dense2)
      ∧ dense2.length = (3 : Int).toNat * (accElemSize c2Acc * 4)
      ∧ ∀ i, i < (3 : Int).toNat →
          (∀ j, j < (1 : Int).toNat → [2].getD j 0 = i →
            elemAt dense2 (accElemSize c2Acc * 4) i
              = (c2Bin.drop (2 + j * (accElemSize c2Acc * 4))).take
                  (accElemSize c2Acc * 4))
          ∧ ((∀ j, j < (1 : Int).toNat → [2].getD j 0 ≠ i) →
            elemAt dense2 (accElemSize c2Acc * 4) i
              = elemAt (List.replicate ((3 : Int).toNat * (accElemSize c2Acc * 4)) 0)
                  (accElemSize c2Acc * 4) i) :=
  c2_densify_correct c2Bin c2Acc c2Sp c2Bvl 3 c2Ind c2Vals
    [(kByteOffset, .num 0)] [(kByteOffset, .num 2)] 2 1
    (List.replicate ((3 : Int).toNat * (accElemSize c2Acc * 4)) 0) [2]
    rfl rfl rfl (by decide)
    (Or.inl ⟨rfl, rfl⟩)
    rfl rfl rfl rfl (by decide) rfl rfl
    (by decide) (by decide) (by decide) (by decide)

end GLB
